import Mathlib

/-
  Verification of the KAD-Kings replicated game-state core.

  Shallow embedding of the converged client variant in src/app/page.tsx
  (the final draft in that file, whose types start at its line 2204).
  TypeScript numbers are modelled as integers (all numbers stored in game
  state are integers: counters, millisecond timestamps, whole seconds);
  the one float in the code, Math.random(), is modelled as a rational
  parameter in [0, 1).  JavaScript objects used as string-keyed records
  are modelled as insertion-ordered association lists.  Falsy string
  checks in the source (`if (!s)`) are modelled as tests against the
  empty string, and `string | null` as Option String where `some ""`
  is the falsy non-null string.
-/

namespace KadKings

/-- Per-player stats record (type PlayerStats in page.tsx). -/
structure PlayerStats where
  name : String
  drinks : Int
  cardsDrawn : Int
  qmCaught : Int
  powerLosses : Int
deriving DecidableEq

/-- The two tap-based power kinds (type PowerKind): 7 = heaven, J = thumb. -/
inductive PowerKind where
  | heaven
  | thumb
deriving DecidableEq

/-- Tap-based power round (type PowerRound in page.tsx). -/
structure PowerRound where
  kind : PowerKind
  active : Bool
  startedBy : String
  eligible : List String
  tapped : List String
  loser : Option String
  startedAt : Int
deriving DecidableEq

/-- Waterfall phase strings "pending" and "active" of the non-null
WaterfallState variant. -/
inductive WPhase where
  | pending
  | active
deriving DecidableEq

/-- The non-null variant of type WaterfallState in page.tsx.  The
`direction` field is the literal "clockwise" in the source. -/
structure Waterfall where
  phase : WPhase
  drawer : String
  durationSec : Int
  startedAt : Option Int
  direction : String
deriving DecidableEq

/-- Persistent King rule (type KingRule in page.tsx). -/
structure KingRule where
  id : String
  text : String
  by_ : String
  createdAt : Int
deriving DecidableEq

/-- The root replicated aggregate (type GameState in page.tsx).  The
`players` record is an insertion-ordered association list keyed by
identity. -/
structure GameState where
  host : Option String
  deck : List String
  currentCard : Option String
  turn : Option String
  lastDrawBy : Option String
  players : List (String × PlayerStats)
  heavenHolder : Option String
  thumbHolder : Option String
  qmHolder : Option String
  kingHolder : Option String
  powerRound : Option PowerRound
  waterfall : Option Waterfall
  kingRules : List KingRule
deriving DecidableEq

/-- The `emptyState` literal in page.tsx. -/
def emptyState : GameState :=
  { host := none
    deck := []
    currentCard := none
    turn := none
    lastDrawBy := none
    players := []
    heavenHolder := none
    thumbHolder := none
    qmHolder := none
    kingHolder := none
    powerRound := none
    waterfall := none
    kingRules := [] }

/-- Lookup `ps[id]` in the players record. -/
def findStat : List (String × PlayerStats) → String → Option PlayerStats
  | [], _ => none
  | (k, v) :: rest, id => if k = id then some v else findStat rest id

/-- Assignment `ps[id] = v` on a JavaScript object: overwrites the
existing key in place, else appends the new key at the end. -/
def setStat : List (String × PlayerStats) → String → PlayerStats →
    List (String × PlayerStats)
  | [], id, v => [(id, v)]
  | (k, w) :: rest, id, v =>
      if k = id then (k, v) :: rest else (k, w) :: setStat rest id v

/-- Key removal `delete ps[id]`. -/
def removeStat (ps : List (String × PlayerStats)) (id : String) :
    List (String × PlayerStats) :=
  ps.filter (fun kv => kv.1 ≠ id)

/-- The fresh record `{ name: id, drinks: 0, cardsDrawn: 0, qmCaught: 0,
powerLosses: 0 }` created by ensurePlayer. -/
def freshStats (id : String) : PlayerStats :=
  { name := id, drinks := 0, cardsDrawn := 0, qmCaught := 0, powerLosses := 0 }

/-- Function ensurePlayer of page.tsx on the players record.  The guard
`if (!id) return` skips falsy (empty) identities; the backward-safe
fill of qmCaught/powerLosses is the identity in this typed model. -/
def ensureStat (ps : List (String × PlayerStats)) (id : String) :
    List (String × PlayerStats) :=
  if id = "" then ps
  else
    match findStat ps id with
    | some _ => ps
    | none => ps ++ [(id, freshStats id)]

/-- Function ensurePlayer lifted to GameState (it mutates gs.players). -/
def ensurePlayer (gs : GameState) (id : String) : GameState :=
  { gs with players := ensureStat gs.players id }

/-- Lexicographic comparison of character lists by code point. -/
def strLeChars : List Char → List Char → Bool
  | [], _ => true
  | _ :: _, [] => false
  | a :: as, b :: bs =>
      if a.toNat < b.toNat then true
      else if b.toNat < a.toNat then false
      else strLeChars as bs

/-- The localeCompare comparator of getTurnOrder, modelled as the
lexicographic order on code points. -/
def strLe (a b : String) : Bool :=
  strLeChars a.toList b.toList

/-- Structural insertion of a string into a sorted list, used to model
`Array.prototype.sort` with the localeCompare comparator. -/
def insertSorted (x : String) : List String → List String
  | [] => [x]
  | y :: rest => if strLe x y then x :: y :: rest else y :: insertSorted x rest

/-- Model of `.sort((a, b) => a.localeCompare(b))`. -/
def sortStrings : List String → List String
  | [] => []
  | x :: rest => insertSorted x (sortStrings rest)

/-- Deduplication with an accumulator of already-seen elements. -/
def dedupAux : List String → List String → List String
  | [], _ => []
  | x :: rest, seen =>
      if x ∈ seen then dedupAux rest seen else x :: dedupAux rest (x :: seen)

/-- Model of `Array.from(new Set(l))`: deduplication keeping the first
occurrence of each element, in order. -/
def dedupFirst (l : List String) : List String :=
  dedupAux l []

/-- Function getTurnOrder of page.tsx: host first (when truthy), then the
other present identities sorted, deduplicated, capped at 6 seats. -/
def getTurnOrder (gs : GameState) : List String :=
  let ids := (gs.players.map Prod.fst).filter (fun x => x ≠ "")
  let host := match gs.host with
              | some h => if h = "" then [] else [h]
              | none => []
  let rest := sortStrings (ids.filter (fun x => gs.host ≠ some x))
  (dedupFirst (host ++ rest)).take 6

/-- JavaScript `a || b || c` over the nullable strings appearing in the
return of advanceTurn: first truthy (nonempty) value, else the final
nullable fallback. -/
def jsOr3 (a b : String) (c : Option String) : Option String :=
  if a ≠ "" then some a else if b ≠ "" then some b else c

/-- Function advanceTurnFrom of the draft variant src/unnamed/part_000
(lines 307-315); page.tsx's advanceTurn is this function applied to
`gs.turn` (same body, with fromId hard-wired).  Returns the next element
cyclically after `fromId`, restarting from the order's first element when
`fromId` is falsy or absent. -/
def advanceTurnFrom (gs : GameState) (fromId : Option String) : Option String :=
  match getTurnOrder gs with
  | [] => gs.host
  | first :: tl =>
      let o := first :: tl
      let cur := match fromId with
                 | some f => if f ≠ "" ∧ f ∈ o then f else first
                 | none => first
      let idx := o.indexOf cur
      jsOr3 (o.getD ((idx + 1) % o.length) "") first gs.host

/-- Function advanceTurn of page.tsx (lines 2535-2543). -/
def advanceTurn (gs : GameState) : Option String :=
  advanceTurnFrom gs gs.turn

/-- Function holderFor of page.tsx. -/
def holderFor (gs : GameState) (kind : PowerKind) : Option String :=
  match kind with
  | PowerKind.heaven => gs.heavenHolder
  | PowerKind.thumb => gs.thumbHolder

/-- Truthiness of `gs.powerRound?.active`. -/
def powerActive (gs : GameState) : Bool :=
  match gs.powerRound with
  | some pr => pr.active
  | none => false

/-- Function startPowerRoundHost of page.tsx.  `now` models Date.now(). -/
def startPowerRoundHost (gs : GameState) (kind : PowerKind) (startedBy : String)
    (now : Int) : GameState :=
  match holderFor gs kind with
  | none => gs
  | some h =>
      if h = "" ∨ h ≠ startedBy then gs
      else if powerActive gs then gs
      else
        let eligible := getTurnOrder gs
        let eligible :=
          if startedBy ≠ "" ∧ startedBy ∉ eligible then startedBy :: eligible
          else eligible
        { gs with
            powerRound := some
              { kind := kind
                active := true
                startedBy := startedBy
                eligible := eligible.take 6
                tapped := []
                loser := none
                startedAt := now } }

/-- JavaScript `s || null` for the loser assignment: a falsy (empty) last
tapper is stored as null. -/
def jsOrNull (s : Option String) : Option String :=
  match s with
  | some v => if v = "" then none else some v
  | none => none

/-- Increment of `players[id].powerLosses` after ensurePlayer, as in the
loser-tracking blocks of page.tsx. -/
def bumpPowerLosses (gs : GameState) (id : String) : GameState :=
  let gs1 := ensurePlayer gs id
  match findStat gs1.players id with
  | some st =>
      let st2 := { st with powerLosses := st.powerLosses + 1 }
      { gs1 with players := setStat gs1.players id st2 }
  | none => gs1

/-- Function tapPowerHost of page.tsx (lines 2578-2602). -/
def tapPowerHost (gs : GameState) (kind : PowerKind) (by_ : String) : GameState :=
  match gs.powerRound with
  | none => gs
  | some pr =>
      if pr.active = false ∨ pr.kind ≠ kind then gs
      else if by_ = "" then gs
      else if by_ ∉ pr.eligible then gs
      else if by_ ∈ pr.tapped then gs
      else
        let tapped := pr.tapped ++ [by_]
        if tapped.length ≥ pr.eligible.length then
          let loser := jsOrNull tapped.getLast?
          let gs1 := { gs with
            powerRound := some
              ({ pr with tapped := tapped, active := false, loser := loser }) }
          match loser with
          | some l => bumpPowerLosses gs1 l
          | none => gs1
        else
          { gs with powerRound := some { pr with tapped := tapped } }

/-- Function clearPowerHost of page.tsx. -/
def clearPowerHost (gs : GameState) : GameState :=
  { gs with powerRound := none }

/-- Function isDeckLocked of page.tsx (lines 2610-2613): only the Ace
waterfall locks the deck, while pending or active. -/
def isDeckLocked (gs : GameState) : Bool :=
  match gs.waterfall with
  | some wf => decide (wf.phase = WPhase.pending ∨ wf.phase = WPhase.active)
  | none => false

/-- Function startWaterfallHost of page.tsx (lines 2615-2627). -/
def startWaterfallHost (gs : GameState) (requestedBy : String) (now : Int) :
    GameState :=
  match gs.waterfall with
  | none => gs
  | some wf =>
      if wf.phase ≠ WPhase.pending then gs
      else if wf.drawer ≠ requestedBy then gs
      else
        let wf2 := { wf with phase := WPhase.active, startedAt := some now }
        { gs with waterfall := some wf2 }

/-- Function tickWaterfallHost of page.tsx (lines 2629-2641): when the
waterfall is active and its wall-clock duration has elapsed, clear it and
only then advance the turn past the drawer.  `now` models Date.now(); a
zero startedAt is falsy in the source guard. -/
def tickWaterfallHost (gs : GameState) (now : Int) : GameState :=
  match gs.waterfall with
  | none => gs
  | some wf =>
      match wf.startedAt with
      | none => gs
      | some st =>
          if wf.phase ≠ WPhase.active ∨ st = 0 then gs
          else if ((now - st : ℚ) / 1000) ≥ (wf.durationSec : ℚ) then
            let gs1 := { gs with waterfall := none }
            { gs1 with turn := advanceTurn gs1 }
          else gs

/-- Function qmCaughtHost of page.tsx: the Question Master tags a target
who answered; tracked as a counter, no auto drinks. -/
def qmCaughtHost (gs : GameState) (qmBy target : String) : GameState :=
  match gs.qmHolder with
  | none => gs
  | some h =>
      if h = "" ∨ h ≠ qmBy then gs
      else if target = "" ∨ target = qmBy then gs
      else
        let gs1 := ensurePlayer gs target
        match findStat gs1.players target with
        | some st =>
            let st2 := { st with qmCaught := st.qmCaught + 1 }
            { gs1 with players := setStat gs1.players target st2 }
        | none => gs1

/-- Function kingAddRuleHost of page.tsx: the King holder prepends a
trimmed rule; the list is capped at 20.  `ruleId` models uid("rule") and
`now` models Date.now(). -/
def kingAddRuleHost (gs : GameState) (by_ text ruleId : String) (now : Int) :
    GameState :=
  match gs.kingHolder with
  | none => gs
  | some h =>
      if h = "" ∨ h ≠ by_ then gs
      else
        let clean := text.trim
        if clean = "" then gs
        else
          let rule : KingRule :=
            { id := ruleId, text := clean, by_ := by_, createdAt := now }
          { gs with kingRules := (rule :: gs.kingRules).take 20 }

/-- Function kingRemoveRuleHost of page.tsx: a rule is removable by the
host or by its author. -/
def kingRemoveRuleHost (gs : GameState) (requestedBy ruleId : String) :
    GameState :=
  match gs.kingRules.find? (fun r => r.id = ruleId) with
  | none => gs
  | some rule =>
      let isHost := gs.host = some requestedBy
      let isOwner := rule.by_ = requestedBy
      if ¬ isHost ∧ ¬ isOwner then gs
      else { gs with kingRules := gs.kingRules.filter (fun r => r.id ≠ ruleId) }

/-- Function parseCard of page.tsx: suit is the final character, rank the
rest; a falsy card yields a dash rank. -/
def parseCard (card : Option String) : String × String :=
  match card with
  | none => ("—", "")
  | some s =>
      if s = "" then ("—", "")
      else
        (String.mk s.toList.dropLast,
         match s.toList.getLast? with
         | some c => String.mk [c]
         | none => "")

/-- The thirteen ranks of function buildDeck. -/
def deckRanks : List String :=
  ["A", "2", "3", "4", "5", "6", "7", "8", "9", "10", "J", "Q", "K"]

/-- The four suits of function buildDeck. -/
def deckSuits : List String := ["♠", "♥", "♦", "♣"]

/-- Function buildDeck of page.tsx: rank-major enumeration of the 52
card strings. -/
def buildDeck : List String :=
  deckRanks.flatMap (fun r => deckSuits.map (fun s => r ++ s))

/-- The deck `draw` pops from: the current deck, or a freshly shuffled
deck when the current one is empty.  `freshDeck` models the result of
shuffle(buildDeck()). -/
def effectiveDeck (gs : GameState) (freshDeck : List String) : List String :=
  if gs.deck.isEmpty then freshDeck else gs.deck

/-- The value of `next.deck.shift() || null` in `draw`. -/
def drawnCard (gs : GameState) (freshDeck : List String) : Option String :=
  match (effectiveDeck gs freshDeck).head? with
  | some c => if c = "" then none else some c
  | none => none

/-- The Ace waterfall duration `Math.floor(5 + Math.random() * 16)`;
`rand` models the Math.random() sample. -/
def aceDuration (rand : ℚ) : Int :=
  ⌊(5 : ℚ) + rand * 16⌋

/-- Increment of `players[me].cardsDrawn` in `draw` (after ensurePlayer). -/
def bumpCardsDrawn (gs : GameState) (id : String) : GameState :=
  match findStat gs.players id with
  | some st =>
      let st2 := { st with cardsDrawn := st.cardsDrawn + 1 }
      { gs with players := setStat gs.players id st2 }
  | none => gs

/-- Function draw of page.tsx (lines 2682-2737), as its effect on the
local GameState.  A locked deck is a hard no-op; a guest (host not equal
to the local identity `me`) sends a DRAW request and performs no local
mutation; the host pops the effective deck, records the drawer, updates
badge holders, and either creates a pending waterfall (Ace, turn pinned
to the drawer) or clears any stale waterfall and advances the turn. -/
def draw (gs : GameState) (me : String) (freshDeck : List String) (rand : ℚ) :
    GameState :=
  if isDeckLocked gs then gs
  else if gs.host ≠ some me then gs
  else
    let card := drawnCard gs freshDeck
    let gs1 := { gs with
      deck := (effectiveDeck gs freshDeck).tail
      currentCard := card }
    let gs2 := ensurePlayer gs1 me
    let gs3 := bumpCardsDrawn gs2 me
    let gs4 := { gs3 with lastDrawBy := some me }
    let rank := (parseCard card).1
    let gs5 := { gs4 with
      heavenHolder := if rank = "7" then some me else gs4.heavenHolder
      thumbHolder := if rank = "J" then some me else gs4.thumbHolder
      qmHolder := if rank = "Q" then some me else gs4.qmHolder
      kingHolder := if rank = "K" then some me else gs4.kingHolder }
    if rank = "A" then
      let wf : Waterfall :=
        { phase := WPhase.pending
          drawer := me
          durationSec := aceDuration rand
          startedAt := none
          direction := "clockwise" }
      { gs5 with waterfall := some wf, turn := some me }
    else
      let gs6 := { gs5 with waterfall := none }
      { gs6 with turn := advanceTurn gs6 }

/-- Function changeDrink of page.tsx (lines 2739-2753), as its effect on
the local GameState: it runs on every peer (host or guest), clamps the
local drink count at zero, and then sends an UPDATE patch (not a STATE
broadcast). -/
def changeDrink (gs : GameState) (me : String) (n : Int) : GameState :=
  let gs1 := ensurePlayer gs me
  match findStat gs1.players me with
  | some st =>
      let st2 := { st with drinks := max 0 (st.drinks + n) }
      { gs1 with players := setStat gs1.players me st2 }
  | none => gs1

/-- Function startPower of page.tsx, as its effect on the local
GameState: guests send a POWER_START request and do not mutate. -/
def startPowerLocal (gs : GameState) (me : String) (kind : PowerKind)
    (now : Int) : GameState :=
  if gs.host ≠ some me then gs else startPowerRoundHost gs kind me now

/-- Function tapPower of page.tsx, as its effect on the local GameState:
guests send a POWER_TAP request and do not mutate. -/
def tapPowerLocal (gs : GameState) (me : String) (kind : PowerKind) :
    GameState :=
  if gs.host ≠ some me then gs else tapPowerHost gs kind me

/-- Function clearPower of page.tsx, as its effect on the local
GameState: guests send a POWER_CLEAR request and do not mutate. -/
def clearPowerLocal (gs : GameState) (me : String) : GameState :=
  if gs.host ≠ some me then gs else clearPowerHost gs

/-- Function startWaterfall of page.tsx, as its effect on the local
GameState: early return unless a pending waterfall exists; guests send a
WATERFALL_START request and do not mutate. -/
def startWaterfallLocal (gs : GameState) (me : String) (now : Int) : GameState :=
  match gs.waterfall with
  | none => gs
  | some wf =>
      if wf.phase ≠ WPhase.pending then gs
      else if gs.host ≠ some me then gs
      else startWaterfallHost gs me now

/-- Function qmCaught of page.tsx, as its effect on the local GameState:
early return unless the local peer holds the QM badge; guests send a
QM_CAUGHT request and do not mutate. -/
def qmCaughtLocal (gs : GameState) (me target : String) : GameState :=
  match gs.qmHolder with
  | none => gs
  | some h =>
      if h = "" ∨ h ≠ me then gs
      else if gs.host ≠ some me then gs
      else qmCaughtHost gs me target

/-- Function kingAddRule of page.tsx, as its effect on the local
GameState: early return on empty trimmed text or when not the King
holder; guests send a KING_ADD_RULE request and do not mutate. -/
def kingAddRuleLocal (gs : GameState) (me text ruleId : String) (now : Int) :
    GameState :=
  if text.trim = "" then gs
  else
    match gs.kingHolder with
    | none => gs
    | some h =>
        if h = "" ∨ h ≠ me then gs
        else if gs.host ≠ some me then gs
        else kingAddRuleHost gs me text ruleId now

/-- Function kingRemoveRule of page.tsx, as its effect on the local
GameState: guests send a KING_REMOVE_RULE request and do not mutate. -/
def kingRemoveRuleLocal (gs : GameState) (me ruleId : String) : GameState :=
  if gs.host ≠ some me then gs else kingRemoveRuleHost gs me ruleId

/-- Truthiness test for a nullable string (`!s` in the source). -/
def strFalsy : Option String → Bool
  | none => true
  | some s => s = ""

/-- JavaScript `a || b` where a is a nullable string and b a string, as
used in `n.turn = n.host || participant.identity`. -/
def jsOrS (a : Option String) (b : String) : String :=
  match a with
  | some s => if s = "" then b else s
  | none => b

/-- The TrackSubscribed / ParticipantConnected handlers of page.tsx
(lines 2908-2926): ensure a record for the identity and default an unset
turn to host-or-identity. -/
def onPeerConnected (gs : GameState) (id : String) : GameState :=
  let gs1 := ensurePlayer gs id
  if strFalsy gs1.turn then { gs1 with turn := some (jsOrS gs1.host id) }
  else gs1

/-- The roster-and-turn block of the ParticipantDisconnected handler
(page.tsx lines 2932-2933): delete the record, and advance a turn that
pointed at the departed identity. -/
def discPlayers (gs : GameState) (id : String) : GameState :=
  let gs1 := { gs with players := removeStat gs.players id }
  if gs1.turn = some id then { gs1 with turn := advanceTurn gs1 } else gs1

/-- The badge block of the ParticipantDisconnected handler (page.tsx
lines 2935-2938): clear every badge slot held by the departed identity. -/
def discBadges (gs : GameState) (id : String) : GameState :=
  { gs with
    heavenHolder := if gs.heavenHolder = some id then none else gs.heavenHolder
    thumbHolder := if gs.thumbHolder = some id then none else gs.thumbHolder
    qmHolder := if gs.qmHolder = some id then none else gs.qmHolder
    kingHolder := if gs.kingHolder = some id then none else gs.kingHolder }

/-- The power-round block of the ParticipantDisconnected handler (page.tsx
lines 2940-2955): drop the departed identity from the eligible and tapped
lists of an active round, resolving the round when the remaining eligible
list is nonempty and fully covered by the remaining taps. -/
def discPower (gs : GameState) (id : String) : GameState :=
  match gs.powerRound with
  | some pr =>
      if pr.active then
        let el := pr.eligible.filter (fun x => x ≠ id)
        let tp := pr.tapped.filter (fun x => x ≠ id)
        if 0 < el.length ∧ el.length ≤ tp.length then
          let loser := jsOrNull tp.getLast?
          let pr2 := { pr with
            eligible := el, tapped := tp, active := false, loser := loser }
          let gsA := { gs with powerRound := some pr2 }
          match loser with
          | some l => bumpPowerLosses gsA l
          | none => gsA
        else
          { gs with powerRound := some { pr with eligible := el, tapped := tp } }
      else gs
  | none => gs

/-- The waterfall block of the ParticipantDisconnected handler (page.tsx
lines 2957-2961): cancel the waterfall and advance the turn when its
drawer left. -/
def discWaterfall (gs : GameState) (id : String) : GameState :=
  match gs.waterfall with
  | some wf =>
      if wf.drawer = id then
        let gs5 := { gs with waterfall := none }
        { gs5 with turn := advanceTurn gs5 }
      else gs
  | none => gs

/-- The ParticipantDisconnected handler of page.tsx (lines 2928-2965):
remove the record, advance a stale turn, clear badge holders, shrink an
active power round, and cancel the waterfall when its drawer left. -/
def onPeerDisconnected (gs : GameState) (id : String) : GameState :=
  discWaterfall (discPower (discBadges (discPlayers gs id) id) id) id

/-- The post-connect block of function connect in page.tsx (lines
3099-3112): ensure the local record; the first joiner claims the host
slot, builds the deck, and takes the turn; later joiners only default an
unset turn to the host. -/
def connectSelf (gs : GameState) (identity : String)
    (freshDeck : List String) : GameState :=
  let gs1 := ensurePlayer gs identity
  if strFalsy gs1.host then
    { gs1 with host := some identity, deck := freshDeck, turn := some identity }
  else if strFalsy gs1.turn then { gs1 with turn := gs1.host }
  else gs1

/-- A `Partial PlayerStats` patch as carried by UPDATE messages. -/
structure StatsPatch where
  name : Option String
  drinks : Option Int
  cardsDrawn : Option Int
  qmCaught : Option Int
  powerLosses : Option Int
deriving DecidableEq

/-- `Object.assign(record, patch)`: present patch fields overwrite. -/
def applyPatch (st : PlayerStats) (p : StatsPatch) : PlayerStats :=
  { name := p.name.getD st.name
    drinks := p.drinks.getD st.drinks
    cardsDrawn := p.cardsDrawn.getD st.cardsDrawn
    qmCaught := p.qmCaught.getD st.qmCaught
    powerLosses := p.powerLosses.getD st.powerLosses }

/-- The DataReceived UPDATE handler of page.tsx (lines 3084-3091), which
runs on every receiving peer with no host or sender check: ensure a
record for the patched id and Object.assign the patch onto it. -/
def applyUpdate (gs : GameState) (id : String) (p : StatsPatch) : GameState :=
  let gs1 := ensurePlayer gs id
  match findStat gs1.players id with
  | some st =>
      { gs1 with players := setStat gs1.players id (applyPatch st p) }
  | none => gs1

/-- One local or remote event applied to a single peer's local state, as
dispatched by the converged client.  `me` is the local identity.  The
constructors cover: the post-connect block; the local draw and drink
actions (whose guest paths only send requests); the host-side
application of power-round, waterfall and king/QM transitions (reached
locally on the host or via a routed request message, hence the
`gs.host = some me` guards); and the presence-reconciliation handlers
(transport identities are nonempty, and ParticipantDisconnected only
fires for remote participants). -/
inductive Step (me : String) : GameState → GameState → Prop
  | conn {gs} (hne : me ≠ "") (freshDeck : List String) :
      Step me gs (connectSelf gs me freshDeck)
  | drawCard {gs} (freshDeck : List String) (rand : ℚ) :
      Step me gs (draw gs me freshDeck rand)
  | drink {gs} (n : Int) : Step me gs (changeDrink gs me n)
  | pStart {gs} (hh : gs.host = some me) (kind : PowerKind)
      (requestedBy : String) (now : Int) :
      Step me gs (startPowerRoundHost gs kind requestedBy now)
  | pTap {gs} (hh : gs.host = some me) (kind : PowerKind) (by_ : String) :
      Step me gs (tapPowerHost gs kind by_)
  | pClear {gs} (hh : gs.host = some me) : Step me gs (clearPowerHost gs)
  | wfStart {gs} (hh : gs.host = some me) (requestedBy : String) (now : Int) :
      Step me gs (startWaterfallHost gs requestedBy now)
  | wfTick {gs} (hh : gs.host = some me) (now : Int) :
      Step me gs (tickWaterfallHost gs now)
  | qmTag {gs} (hh : gs.host = some me) (requestedBy target : String) :
      Step me gs (qmCaughtHost gs requestedBy target)
  | kAdd {gs} (hh : gs.host = some me) (requestedBy text ruleId : String)
      (now : Int) : Step me gs (kingAddRuleHost gs requestedBy text ruleId now)
  | kRemove {gs} (hh : gs.host = some me) (requestedBy ruleId : String) :
      Step me gs (kingRemoveRuleHost gs requestedBy ruleId)
  | peerJoin {gs} (id : String) (hne : id ≠ "") :
      Step me gs (onPeerConnected gs id)
  | peerLeave {gs} (id : String) (hme : id ≠ me) (hne : id ≠ "") :
      Step me gs (onPeerDisconnected gs id)

/-- States reachable from the empty initial state by the events of
`Step`. -/
inductive Reachable (me : String) : GameState → Prop
  | init : Reachable me emptyState
  | step {gs gs1} : Reachable me gs → Step me gs gs1 → Reachable me gs1

/-- One host-side operation of the 7/J/Q/K power machinery (power rounds,
Question Master tagging, King rules) — the non-Ace transitions that the
converged design never couples to the deck lock. -/
inductive PowerOp where
  | start (kind : PowerKind) (requestedBy : String) (now : Int)
  | tap (kind : PowerKind) (by_ : String)
  | clear
  | qm (requestedBy target : String)
  | kingAdd (requestedBy text ruleId : String) (now : Int)
  | kingRemove (requestedBy ruleId : String)

/-- Application of one power operation. -/
def applyPowerOp (gs : GameState) : PowerOp → GameState
  | PowerOp.start kind requestedBy now => startPowerRoundHost gs kind requestedBy now
  | PowerOp.tap kind by_ => tapPowerHost gs kind by_
  | PowerOp.clear => clearPowerHost gs
  | PowerOp.qm requestedBy target => qmCaughtHost gs requestedBy target
  | PowerOp.kingAdd requestedBy text ruleId now =>
      kingAddRuleHost gs requestedBy text ruleId now
  | PowerOp.kingRemove requestedBy ruleId => kingRemoveRuleHost gs requestedBy ruleId

/-- Sequential application of power operations. -/
def applyPowerOps (gs : GameState) : List PowerOp → GameState
  | [] => gs
  | op :: rest => applyPowerOps (applyPowerOp gs op) rest

/-
  Message codec (functions encode and decode of page.tsx).

  `encode` is `TextEncoder().encode(JSON.stringify(obj))` and `decode` is
  `JSON.parse(TextDecoder().decode(buf))` with a try/catch returning null.
  The wire is modelled at the character level (the UTF-8 byte layer of
  TextEncoder/TextDecoder is a bijection on character sequences and is not
  re-modelled).  JSON.stringify is modelled by a structural emitter over a
  JSON value type and JSON.parse by a fuel-indexed recursive-descent
  parser returning Option.  String escaping models the quote and
  backslash escapes (the messages' strings; control-character escapes are
  not modelled).  JSON numbers occurring in messages are integers. -/

/-- JSON values (the image of the Msg union under JSON.stringify). -/
inductive Json where
  | null
  | bool (b : Bool)
  | num (n : Int)
  | str (s : String)
  | arr (items : List Json)
  | obj (fields : List (String × Json))

/-- The opening-brace character, U+007B. -/
def lbrace : Char := Char.ofNat 123

/-- The closing-brace character, U+007D. -/
def rbrace : Char := Char.ofNat 125

/-- JSON string escaping of quote and backslash. -/
def escapeChars : List Char → List Char
  | [] => []
  | c :: rest =>
      if c = '"' ∨ c = '\\' then '\\' :: c :: escapeChars rest
      else c :: escapeChars rest

/-- The decimal digit character for d. -/
def digitChar (d : Nat) : Char := Char.ofNat (48 + d)

/-- Decimal digit run of a natural number, most significant first. -/
def natDigitsMSD (n : Nat) : List Nat :=
  if n = 0 then [0] else (Nat.digits 10 n).reverse

/-- Decimal notation of a natural number. -/
def emitNat (n : Nat) : List Char :=
  (natDigitsMSD n).map digitChar

/-- Decimal notation of an integer, as produced by JSON.stringify. -/
def emitInt (n : Int) : List Char :=
  if n < 0 then '-' :: emitNat n.natAbs else emitNat n.toNat

mutual

/-- JSON.stringify (no whitespace, insertion-ordered object keys). -/
def emitJson : Json → List Char
  | Json.null => ['n', 'u', 'l', 'l']
  | Json.bool true => ['t', 'r', 'u', 'e']
  | Json.bool false => ['f', 'a', 'l', 's', 'e']
  | Json.num n => emitInt n
  | Json.str s => '"' :: (escapeChars s.toList ++ ['"'])
  | Json.arr l => '[' :: (emitItems l ++ [']'])
  | Json.obj fs => lbrace :: (emitFields fs ++ [rbrace])

/-- Comma-separated array elements. -/
def emitItems : List Json → List Char
  | [] => []
  | [x] => emitJson x
  | x :: y :: rest => emitJson x ++ ',' :: emitItems (y :: rest)

/-- Comma-separated object members. -/
def emitFields : List (String × Json) → List Char
  | [] => []
  | [(k, v)] => '"' :: (escapeChars k.toList ++ '"' :: ':' :: emitJson v)
  | (k, v) :: f :: rest =>
      ('"' :: (escapeChars k.toList ++ '"' :: ':' :: emitJson v)) ++
        ',' :: emitFields (f :: rest)

end

/-- Digit-character test. -/
def isDigitCh (c : Char) : Bool :=
  decide (48 ≤ c.toNat) && decide (c.toNat ≤ 57)

/-- Numeric value of a digit character. -/
def charVal (c : Char) : Nat := c.toNat - 48

/-- Maximal leading digit run of the input. -/
def parseDigits : List Char → List Nat × List Char
  | [] => ([], [])
  | c :: rest =>
      if isDigitCh c then
        let p := parseDigits rest
        (charVal c :: p.1, p.2)
      else ([], c :: rest)

/-- Value of a most-significant-first digit run. -/
def natOfDigitsMSD (ds : List Nat) : Nat :=
  Nat.ofDigits 10 ds.reverse

/-- Body of a JSON string after the opening quote: unescapes
backslash-escaped characters and stops at the closing quote. -/
def parseStrBody : List Char → Option (List Char × List Char)
  | [] => none
  | c :: rest =>
      if c = '"' then some ([], rest)
      else if c = '\\' then
        match rest with
        | [] => none
        | d :: r2 =>
            match parseStrBody r2 with
            | some p => some (d :: p.1, p.2)
            | none => none
      else
        match parseStrBody rest with
        | some p => some (c :: p.1, p.2)
        | none => none

mutual

/-- Fuel-indexed JSON value parser. -/
def parseVal : Nat → List Char → Option (Json × List Char)
  | 0, _ => none
  | Nat.succ fuel, cs =>
      match cs with
      | [] => none
      | c :: rest =>
          if c = '"' then
            match parseStrBody rest with
            | some p => some (Json.str (String.mk p.1), p.2)
            | none => none
          else if c = '[' then
            match rest with
            | ']' :: r2 => some (Json.arr [], r2)
            | _ =>
                match parseItems fuel rest with
                | some p => some (Json.arr p.1, p.2)
                | none => none
          else if c = lbrace then
            match rest with
            | [] => none
            | c2 :: r2 =>
                if c2 = rbrace then some (Json.obj [], r2)
                else
                  match parseFields fuel rest with
                  | some p => some (Json.obj p.1, p.2)
                  | none => none
          else if c = 't' then
            match rest with
            | 'r' :: 'u' :: 'e' :: r2 => some (Json.bool true, r2)
            | _ => none
          else if c = 'f' then
            match rest with
            | 'a' :: 'l' :: 's' :: 'e' :: r2 => some (Json.bool false, r2)
            | _ => none
          else if c = 'n' then
            match rest with
            | 'u' :: 'l' :: 'l' :: r2 => some (Json.null, r2)
            | _ => none
          else if c = '-' then
            match parseDigits rest with
            | ([], _) => none
            | (ds, r2) => some (Json.num (-(natOfDigitsMSD ds : Int)), r2)
          else if isDigitCh c then
            let p := parseDigits (c :: rest)
            some (Json.num (natOfDigitsMSD p.1 : Int), p.2)
          else none

/-- Fuel-indexed parser for a nonempty bracket-terminated element list. -/
def parseItems : Nat → List Char → Option (List Json × List Char)
  | 0, _ => none
  | Nat.succ fuel, cs =>
      match parseVal fuel cs with
      | none => none
      | some (v, r) =>
          match r with
          | ',' :: r2 =>
              match parseItems fuel r2 with
              | some p => some (v :: p.1, p.2)
              | none => none
          | ']' :: r2 => some ([v], r2)
          | _ => none

/-- Fuel-indexed parser for a nonempty brace-terminated member list. -/
def parseFields : Nat → List Char → Option (List (String × Json) × List Char)
  | 0, _ => none
  | Nat.succ fuel, cs =>
      match cs with
      | '"' :: r1 =>
          match parseStrBody r1 with
          | none => none
          | some (kcs, r2) =>
              match r2 with
              | ':' :: r3 =>
                  match parseVal fuel r3 with
                  | none => none
                  | some (v, r4) =>
                      match r4 with
                      | ',' :: r5 =>
                          match parseFields fuel r5 with
                          | some p => some ((String.mk kcs, v) :: p.1, p.2)
                          | none => none
                      | c4 :: r5 =>
                          if c4 = rbrace then some ([(String.mk kcs, v)], r5)
                          else none
                      | [] => none
              | _ => none
      | _ => none

end

/-- Function decode of page.tsx: JSON.parse of the whole input, null on
failure. -/
def decodeJson (cs : List Char) : Option Json :=
  match parseVal (cs.length + 1) cs with
  | some (j, []) => some j
  | _ => none

mutual

/-- Structural size of a JSON value, bounding the parser fuel it needs. -/
def jsize : Json → Nat
  | Json.null => 1
  | Json.bool _ => 1
  | Json.num _ => 1
  | Json.str _ => 1
  | Json.arr l => itemsSize l + 1
  | Json.obj fs => fieldsSize fs + 1

/-- Combined size of array elements. -/
def itemsSize : List Json → Nat
  | [] => 0
  | x :: rest => jsize x + itemsSize rest + 1

/-- Combined size of object members. -/
def fieldsSize : List (String × Json) → Nat
  | [] => 0
  | kv :: rest => jsize kv.2 + fieldsSize rest + 1

end

/-- The Msg union of page.tsx (lines 2274-2284). -/
inductive Msg where
  | state (data : GameState)
  | drawReq (requestedBy : Option String)
  | update (id : String) (patch : StatsPatch)
  | powerStart (kind : PowerKind) (requestedBy : String)
  | powerTap (kind : PowerKind) (by_ : String)
  | powerClear (requestedBy : String)
  | waterfallStart (requestedBy : String)
  | qmCaughtMsg (requestedBy target : String)
  | kingAddRuleMsg (requestedBy text : String)
  | kingRemoveRuleMsg (requestedBy ruleId : String)
deriving DecidableEq

/-- JSON image of a nullable string field. -/
def optStrJson : Option String → Json
  | none => Json.null
  | some s => Json.str s

/-- JSON image of a nullable number field. -/
def optIntJson : Option Int → Json
  | none => Json.null
  | some n => Json.num n

/-- Wire string of a PowerKind. -/
def kindToStr : PowerKind → String
  | PowerKind.heaven => "heaven"
  | PowerKind.thumb => "thumb"

/-- Wire string of a waterfall phase. -/
def phaseToStr : WPhase → String
  | WPhase.pending => "pending"
  | WPhase.active => "active"

/-- JSON image of a PlayerStats record. -/
def statsToJson (st : PlayerStats) : Json :=
  Json.obj
    [("name", Json.str st.name),
     ("drinks", Json.num st.drinks),
     ("cardsDrawn", Json.num st.cardsDrawn),
     ("qmCaught", Json.num st.qmCaught),
     ("powerLosses", Json.num st.powerLosses)]

/-- JSON image of a PowerRound. -/
def powerRoundToJson (pr : PowerRound) : Json :=
  Json.obj
    [("kind", Json.str (kindToStr pr.kind)),
     ("active", Json.bool pr.active),
     ("startedBy", Json.str pr.startedBy),
     ("eligible", Json.arr (pr.eligible.map Json.str)),
     ("tapped", Json.arr (pr.tapped.map Json.str)),
     ("loser", optStrJson pr.loser),
     ("startedAt", Json.num pr.startedAt)]

/-- JSON image of a non-null WaterfallState. -/
def waterfallToJson (wf : Waterfall) : Json :=
  Json.obj
    [("phase", Json.str (phaseToStr wf.phase)),
     ("drawer", Json.str wf.drawer),
     ("durationSec", Json.num wf.durationSec),
     ("startedAt", optIntJson wf.startedAt),
     ("direction", Json.str wf.direction)]

/-- JSON image of a KingRule. -/
def ruleToJson (r : KingRule) : Json :=
  Json.obj
    [("id", Json.str r.id),
     ("text", Json.str r.text),
     ("by", Json.str r.by_),
     ("createdAt", Json.num r.createdAt)]

/-- JSON image of a GameState. -/
def gameStateToJson (gs : GameState) : Json :=
  Json.obj
    [("host", optStrJson gs.host),
     ("deck", Json.arr (gs.deck.map Json.str)),
     ("currentCard", optStrJson gs.currentCard),
     ("turn", optStrJson gs.turn),
     ("lastDrawBy", optStrJson gs.lastDrawBy),
     ("players", Json.obj (gs.players.map (fun kv => (kv.1, statsToJson kv.2)))),
     ("heavenHolder", optStrJson gs.heavenHolder),
     ("thumbHolder", optStrJson gs.thumbHolder),
     ("qmHolder", optStrJson gs.qmHolder),
     ("kingHolder", optStrJson gs.kingHolder),
     ("powerRound",
       match gs.powerRound with
       | some pr => powerRoundToJson pr
       | none => Json.null),
     ("waterfall",
       match gs.waterfall with
       | some wf => waterfallToJson wf
       | none => Json.null),
     ("kingRules", Json.arr (gs.kingRules.map ruleToJson))]

/-- JSON image of an UPDATE patch: JSON.stringify drops absent
(undefined) fields. -/
def patchToJson (p : StatsPatch) : Json :=
  Json.obj
    ((match p.name with
      | some v => [("name", Json.str v)]
      | none => []) ++
     (match p.drinks with
      | some v => [("drinks", Json.num v)]
      | none => []) ++
     (match p.cardsDrawn with
      | some v => [("cardsDrawn", Json.num v)]
      | none => []) ++
     (match p.qmCaught with
      | some v => [("qmCaught", Json.num v)]
      | none => []) ++
     (match p.powerLosses with
      | some v => [("powerLosses", Json.num v)]
      | none => []))

/-- JSON image of a Msg, as JSON.stringify lays it out (a DRAW message
with no requester omits the undefined requestedBy key). -/
def msgToJson : Msg → Json
  | Msg.state d => Json.obj [("type", Json.str "STATE"), ("data", gameStateToJson d)]
  | Msg.drawReq rb =>
      Json.obj
        (("type", Json.str "DRAW") ::
          (match rb with
           | some r => [("requestedBy", Json.str r)]
           | none => []))
  | Msg.update id p =>
      Json.obj [("type", Json.str "UPDATE"), ("id", Json.str id), ("patch", patchToJson p)]
  | Msg.powerStart k rb =>
      Json.obj
        [("type", Json.str "POWER_START"), ("kind", Json.str (kindToStr k)),
         ("requestedBy", Json.str rb)]
  | Msg.powerTap k b =>
      Json.obj
        [("type", Json.str "POWER_TAP"), ("kind", Json.str (kindToStr k)),
         ("by", Json.str b)]
  | Msg.powerClear rb =>
      Json.obj [("type", Json.str "POWER_CLEAR"), ("requestedBy", Json.str rb)]
  | Msg.waterfallStart rb =>
      Json.obj [("type", Json.str "WATERFALL_START"), ("requestedBy", Json.str rb)]
  | Msg.qmCaughtMsg rb tg =>
      Json.obj
        [("type", Json.str "QM_CAUGHT"), ("requestedBy", Json.str rb),
         ("target", Json.str tg)]
  | Msg.kingAddRuleMsg rb tx =>
      Json.obj
        [("type", Json.str "KING_ADD_RULE"), ("requestedBy", Json.str rb),
         ("text", Json.str tx)]
  | Msg.kingRemoveRuleMsg rb rid =>
      Json.obj
        [("type", Json.str "KING_REMOVE_RULE"), ("requestedBy", Json.str rb),
         ("ruleId", Json.str rid)]

/-- The character stream published for a message:
TextEncoder().encode(JSON.stringify(msg)). -/
def encode (m : Msg) : List Char :=
  emitJson (msgToJson m)

/-- Association lookup in a JSON object (JavaScript property access). -/
def jlookup : List (String × Json) → String → Option Json
  | [], _ => none
  | (k, v) :: rest, key => if k = key then some v else jlookup rest key

/-- Read of a field the receiver expects to be a string. -/
def asStr : Option Json → Option String
  | some (Json.str s) => some s
  | _ => none

/-- Nullish test on a read field (`x ?? d` takes d exactly when x is
null or undefined). -/
def jNullish : Option Json → Bool
  | none => true
  | some Json.null => true
  | _ => false

/-- Read of a `string | null` field with a `?? null` default. -/
def asOptStr : Option Json → Option (Option String)
  | none => some none
  | some Json.null => some none
  | some (Json.str s) => some (some s)
  | some _ => none

/-- Read of a numeric field that ensurePlayer would default to 0 when it
is not a number (the backward-safe fill). -/
def jNumOr0 : Option Json → Int
  | some (Json.num n) => n
  | _ => 0

/-- Read of a required numeric field. -/
def asNum : Option Json → Option Int
  | some (Json.num n) => some n
  | _ => none

/-- Read of a required boolean field. -/
def asBool : Option Json → Option Bool
  | some (Json.bool b) => some b
  | _ => none

/-- Read of a `number | null` field. -/
def asOptInt : Option Json → Option (Option Int)
  | none => some none
  | some Json.null => some none
  | some (Json.num n) => some (some n)
  | some _ => none

/-- PowerKind of its wire string. -/
def kindOfStr (s : String) : Option PowerKind :=
  if s = "heaven" then some PowerKind.heaven
  else if s = "thumb" then some PowerKind.thumb
  else none

/-- Waterfall phase of its wire string. -/
def phaseOfStr (s : String) : Option WPhase :=
  if s = "pending" then some WPhase.pending
  else if s = "active" then some WPhase.active
  else none

/-- Read of a string-array field. -/
def asStrList : Json → Option (List String)
  | Json.arr l => asStrItems l
  | _ => none
where
  asStrItems : List Json → Option (List String)
  | [] => some []
  | Json.str s :: rest =>
      match asStrItems rest with
      | some tl => some (s :: tl)
      | none => none
  | _ => none

/-- Typed read of a received PlayerStats record, with the backward-safe
qmCaught/powerLosses defaults the STATE handler applies via
ensurePlayer. -/
def statsFromJson : Json → Option PlayerStats
  | Json.obj fs =>
      match asStr (jlookup fs "name"), asNum (jlookup fs "drinks"),
          asNum (jlookup fs "cardsDrawn") with
      | some nm, some dr, some cd =>
          some
            { name := nm, drinks := dr, cardsDrawn := cd
              qmCaught := jNumOr0 (jlookup fs "qmCaught")
              powerLosses := jNumOr0 (jlookup fs "powerLosses") }
      | _, _, _ => none
  | _ => none

/-- Typed read of a received players record. -/
def playersFromJson : Json → Option (List (String × PlayerStats))
  | Json.obj fs => playersOfFields fs
  | _ => none
where
  playersOfFields : List (String × Json) → Option (List (String × PlayerStats))
  | [] => some []
  | (k, v) :: rest =>
      match statsFromJson v, playersOfFields rest with
      | some st, some tl => some ((k, st) :: tl)
      | _, _ => none

/-- Typed read of a received PowerRound. -/
def powerRoundFromJson : Json → Option PowerRound
  | Json.obj fs =>
      match asStr (jlookup fs "kind"), asBool (jlookup fs "active"),
          asStr (jlookup fs "startedBy") with
      | some ks, some ac, some sb =>
          match kindOfStr ks with
          | none => none
          | some k =>
              match jlookup fs "eligible", jlookup fs "tapped" with
              | some elJ, some tpJ =>
                  match asStrList elJ, asStrList tpJ,
                      asOptStr (jlookup fs "loser"), asNum (jlookup fs "startedAt") with
                  | some el, some tp, some lo, some sa =>
                      some
                        { kind := k, active := ac, startedBy := sb,
                          eligible := el, tapped := tp, loser := lo, startedAt := sa }
                  | _, _, _, _ => none
              | _, _ => none
      | _, _, _ => none
  | _ => none

/-- Typed read of a received WaterfallState. -/
def waterfallFromJson : Json → Option Waterfall
  | Json.obj fs =>
      match asStr (jlookup fs "phase"), asStr (jlookup fs "drawer"),
          asNum (jlookup fs "durationSec"), asOptInt (jlookup fs "startedAt"),
          asStr (jlookup fs "direction") with
      | some ph, some dw, some du, some sa, some di =>
          match phaseOfStr ph with
          | none => none
          | some p =>
              some
                { phase := p, drawer := dw, durationSec := du,
                  startedAt := sa, direction := di }
      | _, _, _, _, _ => none
  | _ => none

/-- Typed read of a received KingRule. -/
def ruleFromJson : Json → Option KingRule
  | Json.obj fs =>
      match asStr (jlookup fs "id"), asStr (jlookup fs "text"),
          asStr (jlookup fs "by"), asNum (jlookup fs "createdAt") with
      | some i, some tx, some b, some ca =>
          some { id := i, text := tx, by_ := b, createdAt := ca }
      | _, _, _, _ => none
  | _ => none

/-- Typed read of a received rule list. -/
def rulesFromJson : Json → Option (List KingRule)
  | Json.arr l => rulesOfItems l
  | _ => none
where
  rulesOfItems : List Json → Option (List KingRule)
  | [] => some []
  | v :: rest =>
      match ruleFromJson v, rulesOfItems rest with
      | some r, some tl => some (r :: tl)
      | _, _ => none

/-- Typed reader of the wire layout a GameState is broadcast in (the
field list gameStateToJson emits, which the STATE handler of page.tsx
lines 2971-2991 consumes field by field): each field read back at its
declared type, with the handler's backward-safe empty defaults for the
nullable container fields. -/
def gameStateFromJson : Json → Option GameState
  | Json.obj fs =>
      match asOptStr (jlookup fs "host"), asOptStr (jlookup fs "currentCard"),
          asOptStr (jlookup fs "lastDrawBy") with
      | some host, some cc, some ldb =>
          match asOptStr (jlookup fs "turn") with
          | none => none
          | some turn =>
              match
                (if jNullish (jlookup fs "deck") then some []
                 else
                   match jlookup fs "deck" with
                   | some d => asStrList d
                   | none => none),
                (if jNullish (jlookup fs "players") then some []
                 else
                   match jlookup fs "players" with
                   | some p => playersFromJson p
                   | none => none) with
              | some deck, some players =>
                  match asOptStr (jlookup fs "heavenHolder"),
                      asOptStr (jlookup fs "thumbHolder"),
                      asOptStr (jlookup fs "qmHolder"),
                      asOptStr (jlookup fs "kingHolder") with
                  | some hh, some th, some qh, some kh =>
                      match
                        (if jNullish (jlookup fs "powerRound") then some none
                         else
                           match jlookup fs "powerRound" with
                           | some prJ =>
                               match powerRoundFromJson prJ with
                               | some pr => some (some pr)
                               | none => none
                           | none => none),
                        (if jNullish (jlookup fs "waterfall") then some none
                         else
                           match jlookup fs "waterfall" with
                           | some wfJ =>
                               match waterfallFromJson wfJ with
                               | some wf => some (some wf)
                               | none => none
                           | none => none),
                        (if jNullish (jlookup fs "kingRules") then some []
                         else
                           match jlookup fs "kingRules" with
                           | some krJ => rulesFromJson krJ
                           | none => none) with
                      | some pr, some wf, some kr =>
                          some
                            { host := host, deck := deck, currentCard := cc,
                              turn := turn, lastDrawBy := ldb, players := players,
                              heavenHolder := hh, thumbHolder := th,
                              qmHolder := qh, kingHolder := kh,
                              powerRound := pr, waterfall := wf, kingRules := kr }
                      | _, _, _ => none
                  | _, _, _, _ => none
              | _, _ => none
      | _, _, _ => none
  | _ => none

/-- Typed read of a received UPDATE patch. -/
def patchFromJson : Json → Option StatsPatch
  | Json.obj fs =>
      some
        { name := asStr (jlookup fs "name")
          drinks := asNum (jlookup fs "drinks")
          cardsDrawn := asNum (jlookup fs "cardsDrawn")
          qmCaught := asNum (jlookup fs "qmCaught")
          powerLosses := asNum (jlookup fs "powerLosses") }
  | _ => none

/-- The DataReceived dispatch of page.tsx, as a typed reader of the
decoded JSON back into the Msg union (field reads per handler arm). -/
def readMsg : Json → Option Msg
  | Json.obj fs =>
      match asStr (jlookup fs "type") with
      | none => none
      | some t =>
          if t = "STATE" then
            match jlookup fs "data" with
            | some d =>
                match gameStateFromJson d with
                | some gs => some (Msg.state gs)
                | none => none
            | none => none
          else if t = "DRAW" then
            some (Msg.drawReq (asStr (jlookup fs "requestedBy")))
          else if t = "UPDATE" then
            match asStr (jlookup fs "id"), jlookup fs "patch" with
            | some id, some pJ =>
                match patchFromJson pJ with
                | some p => some (Msg.update id p)
                | none => none
            | _, _ => none
          else if t = "POWER_START" then
            match asStr (jlookup fs "kind"), asStr (jlookup fs "requestedBy") with
            | some ks, some rb =>
                match kindOfStr ks with
                | some k => some (Msg.powerStart k rb)
                | none => none
            | _, _ => none
          else if t = "POWER_TAP" then
            match asStr (jlookup fs "kind"), asStr (jlookup fs "by") with
            | some ks, some b =>
                match kindOfStr ks with
                | some k => some (Msg.powerTap k b)
                | none => none
            | _, _ => none
          else if t = "POWER_CLEAR" then
            match asStr (jlookup fs "requestedBy") with
            | some rb => some (Msg.powerClear rb)
            | none => none
          else if t = "WATERFALL_START" then
            match asStr (jlookup fs "requestedBy") with
            | some rb => some (Msg.waterfallStart rb)
            | none => none
          else if t = "QM_CAUGHT" then
            match asStr (jlookup fs "requestedBy"), asStr (jlookup fs "target") with
            | some rb, some tg => some (Msg.qmCaughtMsg rb tg)
            | _, _ => none
          else if t = "KING_ADD_RULE" then
            match asStr (jlookup fs "requestedBy"), asStr (jlookup fs "text") with
            | some rb, some tx => some (Msg.kingAddRuleMsg rb tx)
            | _, _ => none
          else if t = "KING_REMOVE_RULE" then
            match asStr (jlookup fs "requestedBy"), asStr (jlookup fs "ruleId") with
            | some rb, some rid => some (Msg.kingRemoveRuleMsg rb rid)
            | _, _ => none
          else none
  | _ => none

/-- A two-player state with an active heaven round after one tap, used as
a concrete instance. -/
def gsRound : GameState :=
  { emptyState with
      host := some "a"
      turn := some "a"
      players := [("a", freshStats "a"), ("b", freshStats "b")]
      heavenHolder := some "a"
      powerRound := some
        { kind := PowerKind.heaven
          active := true
          startedBy := "a"
          eligible := ["a", "b"]
          tapped := ["a"]
          loser := none
          startedAt := 0 } }

/-- Host-slot invariant of a single peer's reachable state: the host slot
is unset, or names the local (nonempty) identity and that identity has a
player record. -/
def HostInv (me : String) (gs : GameState) : Prop :=
  gs.host = none ∨
  (gs.host = some me ∧ me ≠ "" ∧ findStat gs.players me ≠ none)

/-- Inductive invariant for turn validity: no empty-string key exists,
the host slot is sound, and the turn is unset or names a present player. -/
def TurnInv (me : String) (gs : GameState) : Prop :=
  findStat gs.players "" = none ∧
  HostInv me gs ∧
  (gs.turn = none ∨ ∃ t, gs.turn = some t ∧ findStat gs.players t ≠ none)

/-- Numeric rank of a waterfall phase along the lifecycle
pending → active → cleared. -/
def phaseIdx : WPhase → Nat
  | WPhase.pending => 0
  | WPhase.active => 1

/-- A guest-side state: the local identity "g" is not the host. -/
def gsGuest : GameState :=
  { emptyState with host := some "h", players := [("g", freshStats "g")] }

/-- A host-side state with an Ace on top of the deck. -/
def gsAce : GameState :=
  { emptyState with
      host := some "h"
      turn := some "h"
      players := [("h", freshStats "h")]
      deck := ["A♠", "2♥"] }

/-- A host-side state locked by a pending waterfall. -/
def gsLockedW : GameState :=
  { emptyState with
      host := some "h"
      turn := some "h"
      players := [("h", freshStats "h")]
      deck := ["2♥"]
      waterfall := some
        { phase := WPhase.pending
          drawer := "h"
          durationSec := 7
          startedAt := none
          direction := "clockwise" } }

/-- A two-player state whose turn order is ["a", "b"]. -/
def gsTurn : GameState :=
  { emptyState with
      host := some "a"
      players := [("a", freshStats "a"), ("b", freshStats "b")] }

/-- A state with an active round whose only eligible participant is the
identity about to leave. -/
def gsSolo : GameState :=
  { emptyState with
      host := some "h"
      turn := some "h"
      players := [("h", freshStats "h"), ("x", freshStats "x")]
      heavenHolder := some "h"
      powerRound := some
        { kind := PowerKind.heaven
          active := true
          startedBy := "h"
          eligible := ["x"]
          tapped := []
          loser := none
          startedAt := 0 } }

/-
  Lemmas and claim theorems.
-/

theorem findStat_append (ps qs : List (String × PlayerStats)) (id : String) :
    findStat (ps ++ qs) id =
      match findStat ps id with
      | some v => some v
      | none => findStat qs id := by
  induction ps with
  | nil => simp [findStat]
  | cons kv rest ih =>
      obtain ⟨k, w⟩ := kv
      by_cases hk : k = id
      · simp [findStat, hk]
      · simp [findStat, hk, ih]

theorem findStat_setStat (ps : List (String × PlayerStats)) (id : String)
    (v : PlayerStats) (id2 : String) :
    findStat (setStat ps id v) id2 =
      if id = id2 then some v else findStat ps id2 := by
  induction ps with
  | nil =>
      by_cases h : id = id2 <;> simp [setStat, findStat, h]
  | cons kv rest ih =>
      obtain ⟨k, w⟩ := kv
      by_cases hk : k = id
      · subst hk
        by_cases h2 : k = id2 <;> simp [setStat, findStat, h2]
      · by_cases h2 : k = id2
        · subst h2
          have : ¬ id = k := fun he => hk he.symm
          simp [setStat, findStat, hk, this]
        · simp [setStat, findStat, hk, h2, ih]

theorem findStat_ensureStat_self (ps : List (String × PlayerStats))
    (id : String) (h : id ≠ "") :
    findStat (ensureStat ps id) id =
      some ((findStat ps id).getD (freshStats id)) := by
  unfold ensureStat
  rw [if_neg h]
  cases hf : findStat ps id with
  | some v => simp [hf]
  | none => simp [findStat_append, hf, findStat]

theorem bumpPowerLosses_powerRound (gs : GameState) (id : String) :
    (bumpPowerLosses gs id).powerRound = gs.powerRound := by
  cases hf : findStat (ensureStat gs.players id) id <;>
    simp [bumpPowerLosses, ensurePlayer, hf]

theorem bumpPowerLosses_waterfall (gs : GameState) (id : String) :
    (bumpPowerLosses gs id).waterfall = gs.waterfall := by
  cases hf : findStat (ensureStat gs.players id) id <;>
    simp [bumpPowerLosses, ensurePlayer, hf]

/-- C1: taps by identities outside the eligible snapshot, or that already
tapped, are no-ops; a permitted tap appends the tapper; the round flips to
inactive exactly when the tap list covers the eligible snapshot, and the
loser is then the tapper just appended. -/
theorem power_tap_spec (gs : GameState) (kind : PowerKind) (by_ : String) :
    (gs.powerRound = none → tapPowerHost gs kind by_ = gs) ∧
    (∀ pr, gs.powerRound = some pr → pr.active = false →
      tapPowerHost gs kind by_ = gs) ∧
    (∀ pr, gs.powerRound = some pr → by_ ∉ pr.eligible →
      tapPowerHost gs kind by_ = gs) ∧
    (∀ pr, gs.powerRound = some pr → by_ ∈ pr.tapped →
      tapPowerHost gs kind by_ = gs) ∧
    (∀ pr, gs.powerRound = some pr → pr.active = true → pr.kind = kind →
      by_ ≠ "" → by_ ∈ pr.eligible → by_ ∉ pr.tapped →
      pr.tapped.Nodup → pr.tapped ⊆ pr.eligible →
      ∃ pr2, (tapPowerHost gs kind by_).powerRound = some pr2 ∧
        pr2.tapped = pr.tapped ++ [by_] ∧
        pr2.eligible = pr.eligible ∧
        (pr2.active = false ↔ pr2.tapped.length = pr.eligible.length) ∧
        (pr2.active = false → pr2.loser = some by_)) := by
  refine ⟨?_, ?_, ?_, ?_, ?_⟩
  · intro h
    simp [tapPowerHost, h]
  · intro pr h ha
    simp [tapPowerHost, h, ha]
  · intro pr h hne
    by_cases hak : pr.active = false ∨ pr.kind ≠ kind
    · simp [tapPowerHost, h, hak]
    · by_cases hb : by_ = ""
      · simp [tapPowerHost, h, hak, hb]
      · simp [tapPowerHost, h, hak, hb, hne]
  · intro pr h htap
    by_cases hak : pr.active = false ∨ pr.kind ≠ kind
    · simp [tapPowerHost, h, hak]
    · by_cases hb : by_ = ""
      · simp [tapPowerHost, h, hak, hb]
      · by_cases he : by_ ∈ pr.eligible
        · simp [tapPowerHost, h, hak, hb, he, htap]
        · simp [tapPowerHost, h, hak, hb, he]
  · intro pr h ha hk hb he htap hnd hsub
    have hlen : (pr.tapped ++ [by_]).length ≤ pr.eligible.length := by
      have hnd2 : (pr.tapped ++ [by_]).Nodup := by
        simp [List.nodup_append, hnd, htap]
      have hsub2 : (pr.tapped ++ [by_]) ⊆ pr.eligible := by
        intro x hx
        rcases List.mem_append.mp hx with hx1 | hx2
        · exact hsub hx1
        · rcases List.mem_singleton.mp hx2 with rfl
          exact he
      exact (List.subperm_of_subset hnd2 hsub2).length_le
    have hloser : jsOrNull (pr.tapped ++ [by_]).getLast? = some by_ := by
      rw [List.getLast?_concat]
      simp [jsOrNull, hb]
    by_cases hfull : (pr.tapped ++ [by_]).length ≥ pr.eligible.length
    · have heq : (pr.tapped ++ [by_]).length = pr.eligible.length :=
        Nat.le_antisymm hlen hfull
      have hfull2 : pr.eligible.length ≤ pr.tapped.length + 1 := by
        simpa using hfull
      refine ⟨{ pr with tapped := pr.tapped ++ [by_], active := false, loser := some by_ }, ?_, by simp, by simp, by simp [heq], by simp⟩
      simp [tapPowerHost, h, ha, hk, hb, he, htap, hfull2, jsOrNull,
        bumpPowerLosses_powerRound]
    · have hfull2 : ¬ pr.eligible.length ≤ pr.tapped.length + 1 := by
        simpa using hfull
      refine ⟨{ pr with tapped := pr.tapped ++ [by_] }, ?_, by simp, by simp, ?_, ?_⟩
      · simp [tapPowerHost, h, ha, hk, hb, he, htap, hfull2]
      · simp only [ha]
        have hne2 : (pr.tapped ++ [by_]).length ≠ pr.eligible.length := by
          simp only [List.length_append, List.length_singleton]
          omega
        simp only [hne2, iff_false]
        simp
      · intro hfalse
        simp [ha] at hfalse

/-- Witness for C1: in the concrete two-player heaven round, the second
tap resolves it with the last tapper as loser. -/
theorem power_tap_spec_witness :
    ∃ pr2, (tapPowerHost gsRound PowerKind.heaven "b").powerRound = some pr2 ∧
      pr2.tapped = ["a"] ++ ["b"] ∧
      pr2.eligible = ["a", "b"] ∧
      (pr2.active = false ↔ pr2.tapped.length = (["a", "b"] : List String).length) ∧
      (pr2.active = false → pr2.loser = some "b") :=
  (power_tap_spec gsRound PowerKind.heaven "b").2.2.2.2 _ rfl rfl rfl
    (by decide) (by decide) (by decide) (by decide) (by decide)

/-- C10: the UPDATE handler runs on every receiving peer and applies the
patch to the named player's record — creating it if absent — with no
check that the sender is the host or the named player; any drinks and
cardsDrawn values, including negative ones, are accepted.  The statement
quantifies over every receiver state (host or guest) and every patch
origin. -/
theorem update_patch_unguarded (gs : GameState) (id : String) (d c : Int)
    (h : id ≠ "") :
    ∃ st,
      findStat (applyUpdate gs id
        { name := none, drinks := some d, cardsDrawn := some c,
          qmCaught := none, powerLosses := none }).players id = some st ∧
      st.drinks = d ∧ st.cardsDrawn = c := by
  have hself := findStat_ensureStat_self gs.players id h
  simp [applyUpdate, ensurePlayer, hself, findStat_setStat, applyPatch]

/-- Witness for C10: a guest state accepts a forged UPDATE that drives
another player's drinks to a negative count. -/
theorem update_patch_unguarded_witness :
    ∃ st,
      findStat (applyUpdate { emptyState with host := some "h" } "victim"
        { name := none, drinks := some (-5), cardsDrawn := some (-3),
          qmCaught := none, powerLosses := none }).players "victim" = some st ∧
      st.drinks = -5 ∧ st.cardsDrawn = -3 :=
  update_patch_unguarded { emptyState with host := some "h" } "victim"
    (-5) (-3) (by decide)

/-- Counterexample to C2: on a peer whose identity "g" is not the host,
the local changeDrink action mutates the local GameState even though it
is not a wholesale STATE replacement. -/
theorem guest_mutation_counterexample :
    gsGuest.host = some "h" ∧ some "h" ≠ some "g" ∧
      changeDrink gsGuest "g" 1 ≠ gsGuest := by
  refine ⟨rfl, by decide, by decide⟩

/-- C2 (amended): a non-host peer's local GameState does change outside
STATE replacement — through changeDrink, received UPDATE patches, and the
join/leave reconciliation handlers — but the guest paths of draw, power
start/tap/clear, waterfall start, QM tagging, and king rule add/remove
never mutate local state; they only send request messages. -/
theorem guest_request_paths_no_local_mutation (gs : GameState) (me : String)
    (hg : gs.host ≠ some me) :
    (∀ freshDeck rand, draw gs me freshDeck rand = gs) ∧
    (∀ kind now, startPowerLocal gs me kind now = gs) ∧
    (∀ kind, tapPowerLocal gs me kind = gs) ∧
    clearPowerLocal gs me = gs ∧
    (∀ now, startWaterfallLocal gs me now = gs) ∧
    (∀ target, qmCaughtLocal gs me target = gs) ∧
    (∀ text ruleId now, kingAddRuleLocal gs me text ruleId now = gs) ∧
    (∀ ruleId, kingRemoveRuleLocal gs me ruleId = gs) := by
  refine ⟨?_, ?_, ?_, ?_, ?_, ?_, ?_, ?_⟩
  · intro freshDeck rand
    by_cases hl : isDeckLocked gs <;> simp [draw, hl, hg]
  · intro kind now
    simp [startPowerLocal, hg]
  · intro kind
    simp [tapPowerLocal, hg]
  · simp [clearPowerLocal, hg]
  · intro now
    cases hwf : gs.waterfall with
    | none => simp [startWaterfallLocal, hwf]
    | some wf =>
        by_cases hp : wf.phase = WPhase.pending <;>
          simp [startWaterfallLocal, hwf, hp, hg]
  · intro target
    cases hq : gs.qmHolder with
    | none => simp [qmCaughtLocal, hq]
    | some h =>
        by_cases hh : h = "" ∨ h ≠ me <;> simp [qmCaughtLocal, hq, hh, hg]
  · intro text ruleId now
    by_cases ht : text.trim = ""
    · simp [kingAddRuleLocal, ht]
    · cases hk : gs.kingHolder with
      | none => simp [kingAddRuleLocal, ht, hk]
      | some h =>
          by_cases hh : h = "" ∨ h ≠ me <;>
            simp [kingAddRuleLocal, ht, hk, hh, hg]
  · intro ruleId
    simp [kingRemoveRuleLocal, hg]

/-- Witness for the amended C2: on the concrete guest state, every
request path leaves the local state untouched. -/
theorem guest_request_paths_witness :
    (∀ freshDeck rand, draw gsGuest "g" freshDeck rand = gsGuest) ∧
    (∀ kind now, startPowerLocal gsGuest "g" kind now = gsGuest) ∧
    (∀ kind, tapPowerLocal gsGuest "g" kind = gsGuest) ∧
    clearPowerLocal gsGuest "g" = gsGuest ∧
    (∀ now, startWaterfallLocal gsGuest "g" now = gsGuest) ∧
    (∀ target, qmCaughtLocal gsGuest "g" target = gsGuest) ∧
    (∀ text ruleId now, kingAddRuleLocal gsGuest "g" text ruleId now = gsGuest) ∧
    (∀ ruleId, kingRemoveRuleLocal gsGuest "g" ruleId = gsGuest) :=
  guest_request_paths_no_local_mutation gsGuest "g" (by decide)

theorem draw_locked (gs : GameState) (me : String) (freshDeck : List String)
    (rand : ℚ) (h : isDeckLocked gs = true) : draw gs me freshDeck rand = gs := by
  simp [draw, h]

theorem aceDuration_lower (rand : ℚ) (h0 : 0 ≤ rand) : 5 ≤ aceDuration rand := by
  unfold aceDuration
  rw [Int.le_floor]
  have : (0 : ℚ) ≤ rand * 16 := by positivity
  push_cast
  linarith

theorem aceDuration_upper (rand : ℚ) (h1 : rand < 1) : aceDuration rand ≤ 20 := by
  have hlt : aceDuration rand < 21 := by
    unfold aceDuration
    rw [Int.floor_lt]
    push_cast
    nlinarith
  omega

/-- C3: a host draw of an Ace from an unlocked deck leaves a pending
waterfall owned by the drawer, locks the deck (making further draw calls
no-ops), pins the turn to the drawer, and fixes an integer duration in
the inclusive range 5 to 20. -/
theorem ace_draw_spec (gs : GameState) (me : String) (freshDeck : List String)
    (rand : ℚ)
    (hh : gs.host = some me)
    (hl : isDeckLocked gs = false)
    (h0 : 0 ≤ rand) (h1 : rand < 1)
    (hA : (parseCard (drawnCard gs freshDeck)).1 = "A") :
    ∃ wf, (draw gs me freshDeck rand).waterfall = some wf ∧
      wf.phase = WPhase.pending ∧
      wf.drawer = me ∧
      isDeckLocked (draw gs me freshDeck rand) = true ∧
      (∀ freshDeck2 rand2,
        draw (draw gs me freshDeck rand) me freshDeck2 rand2 =
          draw gs me freshDeck rand) ∧
      (draw gs me freshDeck rand).turn = some me ∧
      5 ≤ wf.durationSec ∧ wf.durationSec ≤ 20 := by
  have hwf : (draw gs me freshDeck rand).waterfall =
      some { phase := WPhase.pending, drawer := me,
             durationSec := aceDuration rand, startedAt := none,
             direction := "clockwise" } := by
    simp [draw, hl, hh, hA]
  have hturn : (draw gs me freshDeck rand).turn = some me := by
    simp [draw, hl, hh, hA]
  have hlock2 : isDeckLocked (draw gs me freshDeck rand) = true := by
    simp [isDeckLocked, hwf]
  exact ⟨_, hwf, rfl, rfl, hlock2,
    fun freshDeck2 rand2 => draw_locked _ me freshDeck2 rand2 hlock2, hturn,
    aceDuration_lower rand h0, aceDuration_upper rand h1⟩

/-- Witness for C3: the host draws the Ace of spades from a concrete
unlocked two-card deck. -/
theorem ace_draw_spec_witness :
    ∃ wf, (draw gsAce "h" [] 0).waterfall = some wf ∧
      wf.phase = WPhase.pending ∧
      wf.drawer = "h" ∧
      isDeckLocked (draw gsAce "h" [] 0) = true ∧
      (∀ freshDeck2 rand2,
        draw (draw gsAce "h" [] 0) "h" freshDeck2 rand2 = draw gsAce "h" [] 0) ∧
      (draw gsAce "h" [] 0).turn = some "h" ∧
      5 ≤ wf.durationSec ∧ wf.durationSec ≤ 20 :=
  ace_draw_spec gsAce "h" [] 0 rfl (by decide) (by norm_num) (by norm_num)
    (by decide)

theorem ensurePlayer_waterfall (gs : GameState) (id : String) :
    (ensurePlayer gs id).waterfall = gs.waterfall := rfl

theorem startPowerRoundHost_waterfall (gs : GameState) (kind : PowerKind)
    (startedBy : String) (now : Int) :
    (startPowerRoundHost gs kind startedBy now).waterfall = gs.waterfall := by
  unfold startPowerRoundHost
  cases holderFor gs kind with
  | none => rfl
  | some h =>
      by_cases h1 : h = "" ∨ h ≠ startedBy
      · simp [h1]
      · by_cases h2 : powerActive gs = true <;> simp [h1, h2]

theorem tapPowerHost_waterfall (gs : GameState) (kind : PowerKind)
    (by_ : String) : (tapPowerHost gs kind by_).waterfall = gs.waterfall := by
  unfold tapPowerHost
  cases gs.powerRound with
  | none => rfl
  | some pr =>
      by_cases h1 : pr.active = false ∨ pr.kind ≠ kind
      · simp [h1]
      · by_cases h2 : by_ = ""
        · simp [h1, h2]
        · by_cases h3 : by_ ∉ pr.eligible
          · simp [h1, h2, h3]
          · by_cases h4 : by_ ∈ pr.tapped
            · simp [h1, h2, h3, h4]
            · by_cases h5 : pr.eligible.length ≤ pr.tapped.length + 1
              · simp [h1, h2, h3, h4, h5, jsOrNull, bumpPowerLosses_waterfall]
              · simp [h1, h2, h3, h4, h5]

theorem clearPowerHost_waterfall (gs : GameState) :
    (clearPowerHost gs).waterfall = gs.waterfall := rfl

theorem qmCaughtHost_waterfall (gs : GameState) (qmBy target : String) :
    (qmCaughtHost gs qmBy target).waterfall = gs.waterfall := by
  unfold qmCaughtHost
  cases gs.qmHolder with
  | none => rfl
  | some h =>
      by_cases h1 : h = "" ∨ h ≠ qmBy
      · simp [h1]
      · by_cases h2 : target = "" ∨ target = qmBy
        · simp [h1, h2]
        · cases hf : findStat (ensureStat gs.players target) target <;>
            simp [h1, h2, ensurePlayer, hf]

theorem kingAddRuleHost_waterfall (gs : GameState) (by_ text ruleId : String)
    (now : Int) :
    (kingAddRuleHost gs by_ text ruleId now).waterfall = gs.waterfall := by
  unfold kingAddRuleHost
  cases gs.kingHolder with
  | none => rfl
  | some h =>
      by_cases h1 : h = "" ∨ h ≠ by_
      · simp [h1]
      · by_cases h2 : text.trim = "" <;> simp [h1, h2]

theorem kingRemoveRuleHost_waterfall (gs : GameState) (requestedBy ruleId : String) :
    (kingRemoveRuleHost gs requestedBy ruleId).waterfall = gs.waterfall := by
  unfold kingRemoveRuleHost
  cases gs.kingRules.find? (fun r => r.id = ruleId) with
  | none => rfl
  | some rule =>
      by_cases h1 : ¬ gs.host = some requestedBy ∧ ¬ rule.by_ = requestedBy <;>
        simp [h1]

theorem applyPowerOp_waterfall (gs : GameState) (op : PowerOp) :
    (applyPowerOp gs op).waterfall = gs.waterfall := by
  cases op with
  | start kind requestedBy now => exact startPowerRoundHost_waterfall gs kind requestedBy now
  | tap kind by_ => exact tapPowerHost_waterfall gs kind by_
  | clear => rfl
  | qm requestedBy target => exact qmCaughtHost_waterfall gs requestedBy target
  | kingAdd requestedBy text ruleId now =>
      exact kingAddRuleHost_waterfall gs requestedBy text ruleId now
  | kingRemove requestedBy ruleId =>
      exact kingRemoveRuleHost_waterfall gs requestedBy ruleId

theorem isDeckLocked_congr {gs1 gs2 : GameState}
    (h : gs1.waterfall = gs2.waterfall) : isDeckLocked gs1 = isDeckLocked gs2 := by
  unfold isDeckLocked
  rw [h]

theorem findStat_draw_me (gs : GameState) (me : String)
    (freshDeck : List String) (rand : ℚ)
    (hh : gs.host = some me) (hme : me ≠ "") (hl : isDeckLocked gs = false) :
    findStat (draw gs me freshDeck rand).players me =
      some { (findStat gs.players me).getD (freshStats me) with
        cardsDrawn := ((findStat gs.players me).getD (freshStats me)).cardsDrawn + 1 } := by
  have hens := findStat_ensureStat_self gs.players me hme
  by_cases hr : (parseCard (drawnCard gs freshDeck)).1 = "A" <;>
    simp [draw, hl, hh, hr, bumpCardsDrawn, ensurePlayer, hens,
      findStat_setStat]

/-- C4: draws are no-ops exactly when an Ace waterfall is pending or
active, and no sequence of 7/J/Q/K power operations (power rounds, QM
tags, king rules) can lock an unlocked deck. -/
theorem deck_lock_spec :
    (∀ gs me freshDeck rand, gs.host = some me → me ≠ "" →
      (draw gs me freshDeck rand = gs ↔ isDeckLocked gs = true)) ∧
    (∀ gs ops, isDeckLocked gs = false →
      isDeckLocked (applyPowerOps gs ops) = false) := by
  constructor
  · intro gs me freshDeck rand hh hme
    constructor
    · intro heq
      by_contra hl
      have hl2 : isDeckLocked gs = false := by
        cases hb : isDeckLocked gs
        · rfl
        · exact absurd hb hl
      have hfs := findStat_draw_me gs me freshDeck rand hh hme hl2
      rw [heq] at hfs
      cases hfind : findStat gs.players me with
      | none => rw [hfind] at hfs; simp [hfind] at hfs
      | some st =>
          rw [hfind] at hfs
          simp only [Option.getD_some, Option.some.injEq] at hfs
          have h2 := congrArg PlayerStats.cardsDrawn hfs
          simp at h2
    · exact draw_locked gs me freshDeck rand
  · intro gs ops hl
    induction ops generalizing gs with
    | nil => exact hl
    | cons op rest ih =>
        have hw := applyPowerOp_waterfall gs op
        exact ih (applyPowerOp gs op) ((isDeckLocked_congr hw).trans hl)

/-- Witness for C4: a pending waterfall makes the concrete host draw a
no-op, and a 7-power start followed by a tap does not lock the unlocked
empty state. -/
theorem deck_lock_spec_witness :
    draw gsLockedW "h" [] 0 = gsLockedW ∧
    isDeckLocked (applyPowerOps emptyState
      [PowerOp.start PowerKind.heaven "a" 0, PowerOp.tap PowerKind.heaven "a",
       PowerOp.clear]) = false :=
  ⟨(deck_lock_spec.1 gsLockedW "h" [] 0 rfl (by decide)).mpr (by decide),
   deck_lock_spec.2 emptyState _ (by decide)⟩

theorem insertSorted_perm (x : String) (l : List String) :
    (insertSorted x l).Perm (x :: l) := by
  induction l with
  | nil => exact List.Perm.refl _
  | cons y rest ih =>
      unfold insertSorted
      by_cases h : strLe x y = true
      · rw [if_pos h]
      · rw [if_neg h]
        exact (ih.cons y).trans (List.Perm.swap x y rest)

theorem sortStrings_perm (l : List String) : (sortStrings l).Perm l := by
  induction l with
  | nil => exact List.Perm.refl _
  | cons x rest ih =>
      exact (insertSorted_perm x (sortStrings rest)).trans (ih.cons x)

theorem mem_dedupAux {x : String} :
    ∀ (l seen : List String), x ∈ dedupAux l seen → x ∈ l := by
  intro l
  induction l with
  | nil => intro seen h; simp [dedupAux] at h
  | cons y rest ih =>
      intro seen h
      unfold dedupAux at h
      by_cases hy : y ∈ seen
      · simp only [if_pos hy] at h
        exact List.mem_cons_of_mem y (ih seen h)
      · simp only [if_neg hy] at h
        rcases List.mem_cons.mp h with h1 | h2
        · exact h1 ▸ List.mem_cons_self x rest
        · exact List.mem_cons_of_mem y (ih (y :: seen) h2)

theorem mem_getTurnOrder {gs : GameState} {x : String}
    (hx : x ∈ getTurnOrder gs) :
    x ≠ "" ∧ (gs.host = some x ∨ x ∈ gs.players.map Prod.fst) := by
  unfold getTurnOrder at hx
  have hx2 := mem_dedupAux _ _ (List.mem_of_mem_take hx)
  rcases List.mem_append.mp hx2 with hh | hr
  · cases hhost : gs.host with
    | none => rw [hhost] at hh; simp at hh
    | some h =>
        rw [hhost] at hh
        by_cases he : h = ""
        · simp [he] at hh
        · simp only [if_neg he, List.mem_singleton] at hh
          subst hh
          exact ⟨he, Or.inl rfl⟩
  · have hr2 := (sortStrings_perm _).mem_iff.mp hr
    have hr3 := List.mem_filter.mp hr2
    have hr4 := List.mem_filter.mp hr3.1
    refine ⟨by simpa using hr4.2, Or.inr hr4.1⟩

theorem getD_mem_of_lt (l : List String) (n : Nat) (h : n < l.length) :
    l.getD n "" ∈ l := by
  rw [List.getD_eq_getElem?_getD, List.getElem?_eq_getElem h]
  exact List.getElem_mem h

/-- Counterexample to C6: in the concrete order ["a", "b"], an absent
fromIdentity "z" makes advance return "b", not the order's first element
"a". -/
theorem advance_absent_counterexample :
    "z" ∉ getTurnOrder gsTurn ∧
    (getTurnOrder gsTurn).head? = some "a" ∧
    advanceTurnFrom gsTurn (some "z") = some "b" ∧
    (some "b" : Option String) ≠ some "a" := by
  refine ⟨by decide, by decide, by decide, by decide⟩

/-- C6 (amended): when fromIdentity is absent from a nonempty order,
advance restarts the rotation by treating the order's FIRST element as
the stale current holder, returning the element at index 1 % length (the
second element, or the first when the order is a singleton); when
fromIdentity is present it returns the cyclically next element; on an
empty order it returns the host field. -/
theorem advance_turn_characterization (gs : GameState) (f : String) :
    (getTurnOrder gs = [] → advanceTurnFrom gs (some f) = gs.host) ∧
    (getTurnOrder gs ≠ [] → f ∉ getTurnOrder gs →
      advanceTurnFrom gs (some f) =
        some ((getTurnOrder gs).getD (1 % (getTurnOrder gs).length) "")) ∧
    (f ∈ getTurnOrder gs →
      advanceTurnFrom gs (some f) =
        some ((getTurnOrder gs).getD
          (((getTurnOrder gs).indexOf f + 1) % (getTurnOrder gs).length) "")) := by
  refine ⟨?_, ?_, ?_⟩
  · intro h
    unfold advanceTurnFrom
    rw [h]
  · intro hne hf
    cases horder : getTurnOrder gs with
    | nil => exact absurd horder hne
    | cons first tl =>
        rw [horder] at hf
        have hfirst : first ∈ getTurnOrder gs := by
          rw [horder]; exact List.mem_cons_self first tl
        have hgd : (first :: tl).getD (1 % (first :: tl).length) "" ∈ first :: tl := by
          apply getD_mem_of_lt
          exact Nat.mod_lt _ (by simp)
        have hgdne : (first :: tl).getD (1 % (first :: tl).length) "" ≠ "" := by
          have := mem_getTurnOrder (x := (first :: tl).getD (1 % (first :: tl).length) "")
            (by rw [horder]; exact hgd)
          exact this.1
        unfold advanceTurnFrom
        rw [horder]
        have hf2 : ¬ (f = first ∨ f ∈ tl) := by simpa using hf
        simp only [List.getD_eq_getElem?_getD, List.length_cons] at hgdne
        simp [jsOr3, hf2, List.indexOf_cons_self, hgdne]
  · intro hf
    cases horder : getTurnOrder gs with
    | nil => simp [horder] at hf
    | cons first tl =>
        rw [horder] at hf
        have hfne : f ≠ "" := by
          have := mem_getTurnOrder (x := f) (by rw [horder]; exact hf)
          exact this.1
        have hgd : (first :: tl).getD
            (((first :: tl).indexOf f + 1) % (first :: tl).length) "" ∈ first :: tl := by
          apply getD_mem_of_lt
          exact Nat.mod_lt _ (by simp)
        have hgdne : (first :: tl).getD
            (((first :: tl).indexOf f + 1) % (first :: tl).length) "" ≠ "" := by
          have := mem_getTurnOrder (x := (first :: tl).getD
            (((first :: tl).indexOf f + 1) % (first :: tl).length) "")
            (by rw [horder]; exact hgd)
          exact this.1
        unfold advanceTurnFrom
        rw [horder]
        simp only [List.getD_eq_getElem?_getD, List.length_cons] at hgdne
        simp [jsOr3, hfne, hf, hgdne]

/-- Witness for the amended C6: the absent case returns the second
element of ["a", "b"], and the present case wraps from "b" to "a". -/
theorem advance_turn_characterization_witness :
    advanceTurnFrom gsTurn (some "z") =
      some ((getTurnOrder gsTurn).getD (1 % (getTurnOrder gsTurn).length) "") ∧
    advanceTurnFrom gsTurn (some "b") =
      some ((getTurnOrder gsTurn).getD
        (((getTurnOrder gsTurn).indexOf "b" + 1) % (getTurnOrder gsTurn).length) "") :=
  ⟨(advance_turn_characterization gsTurn "z").2.1 (by decide) (by decide),
   (advance_turn_characterization gsTurn "b").2.2 (by decide)⟩

theorem discPlayers_powerRound (gs : GameState) (id : String) :
    (discPlayers gs id).powerRound = gs.powerRound := by
  by_cases h : gs.turn = some id <;> simp [discPlayers, h]

theorem discBadges_powerRound (gs : GameState) (id : String) :
    (discBadges gs id).powerRound = gs.powerRound := rfl

theorem discWaterfall_powerRound (gs : GameState) (id : String) :
    (discWaterfall gs id).powerRound = gs.powerRound := by
  unfold discWaterfall
  cases gs.waterfall with
  | none => rfl
  | some wf => by_cases h : wf.drawer = id <;> simp [h]

/-- Counterexample to C8: in the concrete round with eligible = ["x"] and
tapped = [], the departure of "x" empties both lists — making
tapped.length equal eligible.length — yet the round stays active instead
of resolving. -/
theorem departure_resolution_counterexample :
    (onPeerDisconnected gsSolo "x").powerRound =
      some { kind := PowerKind.heaven, active := true, startedBy := "h",
             eligible := [], tapped := [], loser := none, startedAt := 0 } ∧
    ([] : List String).length = ([] : List String).length := by
  refine ⟨by decide, rfl⟩

/-- C8 (amended): peer-left reconciliation removes the departed identity
from both the eligible and tapped lists of an active round; when the
remaining eligible list is NONEMPTY and the remaining taps cover it, the
round resolves immediately with the last remaining tapper as loser; when
the removal empties the eligible list the round stays active
(unresolved). -/
theorem departure_resolution_amended (gs : GameState) (id : String)
    (pr : PowerRound) (h : gs.powerRound = some pr) (ha : pr.active = true)
    (hemp : "" ∉ pr.tapped) :
    ∃ pr2, (onPeerDisconnected gs id).powerRound = some pr2 ∧
      pr2.eligible = pr.eligible.filter (fun x => x ≠ id) ∧
      pr2.tapped = pr.tapped.filter (fun x => x ≠ id) ∧
      (pr2.eligible ≠ [] → pr2.tapped.length ≥ pr2.eligible.length →
        pr2.active = false ∧ pr2.loser = pr2.tapped.getLast?) ∧
      (pr2.eligible = [] → pr2.active = true) := by
  have hB : (discBadges (discPlayers gs id) id).powerRound = some pr := by
    rw [discBadges_powerRound, discPlayers_powerRound, h]
  have hout : (onPeerDisconnected gs id).powerRound =
      (discPower (discBadges (discPlayers gs id) id) id).powerRound := by
    unfold onPeerDisconnected
    rw [discWaterfall_powerRound]
  have hmain : (onPeerDisconnected gs id).powerRound =
      (if 0 < (pr.eligible.filter (fun x => x ≠ id)).length ∧
          (pr.eligible.filter (fun x => x ≠ id)).length ≤
            (pr.tapped.filter (fun x => x ≠ id)).length then
        some { pr with
          eligible := pr.eligible.filter (fun x => x ≠ id),
          tapped := pr.tapped.filter (fun x => x ≠ id),
          active := false,
          loser := jsOrNull (pr.tapped.filter (fun x => x ≠ id)).getLast? }
      else
        some { pr with
          eligible := pr.eligible.filter (fun x => x ≠ id),
          tapped := pr.tapped.filter (fun x => x ≠ id) }) := by
    rw [hout]
    unfold discPower
    rw [hB]
    dsimp only
    rw [if_pos ha]
    by_cases hres : 0 < (pr.eligible.filter (fun x => x ≠ id)).length ∧
        (pr.eligible.filter (fun x => x ≠ id)).length ≤
          (pr.tapped.filter (fun x => x ≠ id)).length
    · rw [if_pos hres, if_pos hres]
      cases hjv : jsOrNull (pr.tapped.filter (fun x => x ≠ id)).getLast? <;>
        simp [hjv, bumpPowerLosses_powerRound]
    · rw [if_neg hres, if_neg hres]
  by_cases hres : 0 < (pr.eligible.filter (fun x => x ≠ id)).length ∧
      (pr.eligible.filter (fun x => x ≠ id)).length ≤
        (pr.tapped.filter (fun x => x ≠ id)).length
  · have htpne : pr.tapped.filter (fun x => x ≠ id) ≠ [] := by
      have hpos : 0 < (pr.tapped.filter (fun x => x ≠ id)).length :=
        lt_of_lt_of_le hres.1 hres.2
      exact List.length_pos.mp hpos
    obtain ⟨l, hl⟩ : ∃ a, (pr.tapped.filter (fun x => x ≠ id)).getLast? = some a := by
      cases hg : (pr.tapped.filter (fun x => x ≠ id)).getLast? with
      | none => exact absurd (List.getLast?_eq_none_iff.mp hg) htpne
      | some a => exact ⟨a, rfl⟩
    have hlmem : l ∈ pr.tapped.filter (fun x => x ≠ id) := by
      obtain ⟨hne2, heq2⟩ := List.mem_getLast?_eq_getLast
        (l := pr.tapped.filter (fun x => x ≠ id)) (x := l) (by rw [hl]; rfl)
      rw [heq2]
      exact List.getLast_mem hne2
    have hlne : l ≠ "" := by
      intro hl0
      have hmem2 : l ∈ pr.tapped := (List.mem_filter.mp hlmem).1
      rw [hl0] at hmem2
      exact hemp hmem2
    have hjs : jsOrNull (pr.tapped.filter (fun x => x ≠ id)).getLast? = some l := by
      rw [hl]
      simp [jsOrNull, hlne]
    rw [hmain, if_pos hres, hjs]
    refine ⟨_, rfl, rfl, rfl, ?_, ?_⟩
    · intro _ _
      exact ⟨rfl, hl.symm⟩
    · intro hElNil
      exfalso
      have hnil2 : pr.eligible.filter (fun x => x ≠ id) = [] := hElNil
      have h1 := hres.1
      rw [hnil2] at h1
      simp at h1
  · rw [hmain, if_neg hres]
    refine ⟨_, rfl, rfl, rfl, ?_, ?_⟩
    · intro hne2 hge
      exfalso
      apply hres
      exact ⟨List.length_pos.mpr hne2, hge⟩
    · intro _
      exact ha

/-- Witness for the amended C8: a three-identity round where "b" has
tapped and "c" departs; the removal resolves the round with loser "b". -/
theorem departure_resolution_amended_witness :
    ∃ pr2, (onPeerDisconnected gsRound "b").powerRound = some pr2 ∧
      pr2.eligible = (["a", "b"] : List String).filter (fun x => x ≠ "b") ∧
      pr2.tapped = (["a"] : List String).filter (fun x => x ≠ "b") ∧
      (pr2.eligible ≠ [] → pr2.tapped.length ≥ pr2.eligible.length →
        pr2.active = false ∧ pr2.loser = pr2.tapped.getLast?) ∧
      (pr2.eligible = [] → pr2.active = true) :=
  departure_resolution_amended gsRound "b" _ rfl rfl (by decide)

theorem connectSelf_waterfall (gs : GameState) (identity : String)
    (freshDeck : List String) :
    (connectSelf gs identity freshDeck).waterfall = gs.waterfall := by
  by_cases h1 : strFalsy gs.host = true
  · simp [connectSelf, ensurePlayer, h1]
  · by_cases h2 : strFalsy gs.turn = true <;>
      simp [connectSelf, ensurePlayer, h1, h2]

theorem changeDrink_waterfall (gs : GameState) (me : String) (n : Int) :
    (changeDrink gs me n).waterfall = gs.waterfall := by
  cases hf : findStat (ensureStat gs.players me) me <;>
    simp [changeDrink, ensurePlayer, hf]

theorem onPeerConnected_waterfall (gs : GameState) (id : String) :
    (onPeerConnected gs id).waterfall = gs.waterfall := by
  by_cases h : strFalsy gs.turn = true <;>
    simp [onPeerConnected, ensurePlayer, h]

theorem discPlayers_waterfall (gs : GameState) (id : String) :
    (discPlayers gs id).waterfall = gs.waterfall := by
  by_cases h : gs.turn = some id <;> simp [discPlayers, h]

theorem discBadges_waterfall (gs : GameState) (id : String) :
    (discBadges gs id).waterfall = gs.waterfall := rfl

theorem discPower_waterfall (gs : GameState) (id : String) :
    (discPower gs id).waterfall = gs.waterfall := by
  unfold discPower
  split
  · split
    · dsimp only
      split
      · split
        · simp [bumpPowerLosses_waterfall]
        · rfl
      · rfl
    · rfl
  · rfl

theorem discWaterfall_waterfall_cases (gs : GameState) (id : String) :
    (discWaterfall gs id).waterfall = gs.waterfall ∨
    (discWaterfall gs id).waterfall = none := by
  rcases hwf : gs.waterfall with _ | wf
  · left
    unfold discWaterfall
    rw [hwf]
    exact hwf
  · by_cases h : wf.drawer = id
    · right
      unfold discWaterfall
      rw [hwf]
      simp [h]
    · left
      unfold discWaterfall
      rw [hwf]
      simp [h]
      exact hwf

theorem tickWaterfallHost_waterfall_cases (gs : GameState) (now : Int) :
    (tickWaterfallHost gs now).waterfall = gs.waterfall ∨
    (tickWaterfallHost gs now).waterfall = none := by
  rcases hwf : gs.waterfall with _ | wf
  · left
    unfold tickWaterfallHost
    rw [hwf]
    exact hwf
  · rcases hsa : wf.startedAt with _ | st
    · left
      unfold tickWaterfallHost
      rw [hwf]
      simp [hsa]
      exact hwf
    · by_cases h1 : wf.phase ≠ WPhase.active ∨ st = 0
      · left
        unfold tickWaterfallHost
        rw [hwf]
        simp [hsa, h1]
        exact hwf
      · by_cases h2 : ((now - st : ℚ) / 1000) ≥ (wf.durationSec : ℚ)
        · right
          unfold tickWaterfallHost
          rw [hwf]
          simp [hsa, h1, h2]
        · left
          unfold tickWaterfallHost
          rw [hwf]
          simp [hsa, h1, h2]
          exact hwf

theorem isDeckLocked_of_some {gs : GameState} {wf : Waterfall}
    (h : gs.waterfall = some wf) : isDeckLocked gs = true := by
  unfold isDeckLocked
  rw [h]
  rcases wf with ⟨ph, dr, du, sa, di⟩
  cases ph <;> simp

/-- C7: startWaterfallHost is a no-op unless the round is pending and the
requester is its drawer, in which case it moves the phase to active and
fixes startedAt; and no event of the client ever moves a surviving
waterfall's phase backwards (pending → active → cleared only). -/
theorem waterfall_monotonicity_spec :
    (∀ gs requestedBy now,
      (gs.waterfall = none → startWaterfallHost gs requestedBy now = gs) ∧
      (∀ wf, gs.waterfall = some wf → wf.phase ≠ WPhase.pending →
        startWaterfallHost gs requestedBy now = gs) ∧
      (∀ wf, gs.waterfall = some wf → wf.drawer ≠ requestedBy →
        startWaterfallHost gs requestedBy now = gs) ∧
      (∀ wf, gs.waterfall = some wf → wf.phase = WPhase.pending →
        wf.drawer = requestedBy →
        startWaterfallHost gs requestedBy now =
          { gs with waterfall := some { wf with phase := WPhase.active, startedAt := some now } })) ∧
    (∀ me gs gs2, Step me gs gs2 →
      ∀ wf wf2, gs.waterfall = some wf → gs2.waterfall = some wf2 →
        phaseIdx wf.phase ≤ phaseIdx wf2.phase) := by
  constructor
  · intro gs requestedBy now
    refine ⟨?_, ?_, ?_, ?_⟩
    · intro h
      simp [startWaterfallHost, h]
    · intro wf h hp
      simp [startWaterfallHost, h, hp]
    · intro wf h hd
      by_cases hp : wf.phase ≠ WPhase.pending <;>
        simp [startWaterfallHost, h, hp, hd]
    · intro wf h hp hd
      simp [startWaterfallHost, h, hp, hd]
  · intro me gs gs2 hstep
    induction hstep with
    | conn hne freshDeck =>
        intro wf wf2 h1 h2
        rw [connectSelf_waterfall, h1] at h2
        cases h2
        exact le_refl _
    | drawCard freshDeck rand =>
        intro wf wf2 h1 h2
        rw [draw_locked _ _ _ _ (isDeckLocked_of_some h1), h1] at h2
        cases h2
        exact le_refl _
    | drink n =>
        intro wf wf2 h1 h2
        rw [changeDrink_waterfall, h1] at h2
        cases h2
        exact le_refl _
    | pStart hh kind requestedBy now =>
        intro wf wf2 h1 h2
        rw [startPowerRoundHost_waterfall, h1] at h2
        cases h2
        exact le_refl _
    | pTap hh kind by_ =>
        intro wf wf2 h1 h2
        rw [tapPowerHost_waterfall, h1] at h2
        cases h2
        exact le_refl _
    | pClear hh =>
        intro wf wf2 h1 h2
        rw [clearPowerHost_waterfall, h1] at h2
        cases h2
        exact le_refl _
    | wfStart hh requestedBy now =>
        intro wf wf2 h1 h2
        unfold startWaterfallHost at h2
        rw [h1] at h2
        by_cases hp : wf.phase ≠ WPhase.pending
        · simp only [if_pos hp] at h2
          rw [h1] at h2
          cases h2
          exact le_refl _
        · simp only [if_neg hp] at h2
          push_neg at hp
          by_cases hd : wf.drawer ≠ requestedBy
          · simp only [if_pos hd] at h2
            rw [h1] at h2
            cases h2
            exact le_refl _
          · simp only [if_neg hd] at h2
            simp at h2
            rw [← h2, hp]
            cases wf.phase <;> simp [phaseIdx]
    | wfTick hh now =>
        intro wf wf2 h1 h2
        rcases tickWaterfallHost_waterfall_cases _ now with hc | hc
        · rw [hc, h1] at h2
          cases h2
          exact le_refl _
        · rw [hc] at h2
          cases h2
    | qmTag hh requestedBy target =>
        intro wf wf2 h1 h2
        rw [qmCaughtHost_waterfall, h1] at h2
        cases h2
        exact le_refl _
    | kAdd hh requestedBy text ruleId now =>
        intro wf wf2 h1 h2
        rw [kingAddRuleHost_waterfall, h1] at h2
        cases h2
        exact le_refl _
    | kRemove hh requestedBy ruleId =>
        intro wf wf2 h1 h2
        rw [kingRemoveRuleHost_waterfall, h1] at h2
        cases h2
        exact le_refl _
    | peerJoin id hne =>
        intro wf wf2 h1 h2
        rw [onPeerConnected_waterfall, h1] at h2
        cases h2
        exact le_refl _
    | peerLeave id hme hne =>
        intro wf wf2 h1 h2
        unfold onPeerDisconnected at h2
        rcases discWaterfall_waterfall_cases
            (discPower (discBadges (discPlayers gs id) id) id) id with hc | hc
        · rw [hc, discPower_waterfall, discBadges_waterfall,
            discPlayers_waterfall, h1] at h2
          cases h2
          exact le_refl _
        · rw [hc] at h2
          cases h2

/-- Witness for C7: the drawer's start request flips the concrete pending
waterfall to active with its start time fixed, and a drink event keeps
the pending phase in place. -/
theorem waterfall_monotonicity_spec_witness :
    startWaterfallHost gsLockedW "h" 42 =
      { gsLockedW with waterfall := some { phase := WPhase.active, drawer := "h", durationSec := 7, startedAt := some 42, direction := "clockwise" } } ∧
    phaseIdx WPhase.pending ≤ phaseIdx WPhase.pending :=
  ⟨(waterfall_monotonicity_spec.1 gsLockedW "h" 42).2.2.2 _ rfl rfl rfl,
   waterfall_monotonicity_spec.2 "g" gsLockedW (changeDrink gsLockedW "g" 1)
     (Step.drink 1) _ _ rfl
     (by rw [changeDrink_waterfall]; rfl)⟩

theorem findStat_ne_none_iff (ps : List (String × PlayerStats)) (id : String) :
    findStat ps id ≠ none ↔ id ∈ ps.map Prod.fst := by
  induction ps with
  | nil => simp [findStat]
  | cons kv rest ih =>
      obtain ⟨k, w⟩ := kv
      by_cases hk : k = id
      · simp [findStat, hk]
      · simp only [findStat, if_neg hk, List.map_cons, List.mem_cons]
        rw [ih]
        constructor
        · exact Or.inr
        · intro h
          rcases h with h1 | h2
          · exact absurd h1.symm hk
          · exact h2

theorem findStat_ensureStat_char (ps : List (String × PlayerStats))
    (id x : String) :
    findStat (ensureStat ps id) x =
      if x = id ∧ id ≠ "" then some ((findStat ps id).getD (freshStats id))
      else findStat ps x := by
  by_cases hid : id = ""
  · simp [ensureStat, hid]
  · by_cases hx : x = id
    · subst hx
      rw [findStat_ensureStat_self ps x hid]
      simp [hid]
    · have hcond : ¬ (x = id ∧ id ≠ "") := fun hc => hx hc.1
      rw [if_neg hcond]
      unfold ensureStat
      rw [if_neg hid]
      cases hf : findStat ps id with
      | some v => rfl
      | none =>
          rw [findStat_append]
          cases hfx : findStat ps x with
          | some v => rfl
          | none =>
              have hix : ¬ id = x := fun h => hx h.symm
              simp [findStat, hix]

theorem findStat_removeStat (ps : List (String × PlayerStats)) (id x : String) :
    findStat (removeStat ps id) x = if x = id then none else findStat ps x := by
  induction ps with
  | nil => by_cases h : x = id <;> simp [removeStat, findStat, h]
  | cons kv rest ih =>
      obtain ⟨k, w⟩ := kv
      by_cases hk : k = id
      · subst hk
        have hdrop : removeStat ((k, w) :: rest) k = removeStat rest k := by
          simp [removeStat, List.filter_cons]
        rw [hdrop, ih]
        by_cases hx : x = k
        · simp [hx]
        · have hkx : ¬ k = x := fun h => hx h.symm
          simp [findStat, hx, hkx]
      · have hkeep : removeStat ((k, w) :: rest) id = (k, w) :: removeStat rest id := by
          simp [removeStat, List.filter_cons, hk]
        rw [hkeep]
        by_cases hx : x = k
        · subst hx
          have hxid : ¬ x = id := hk
          simp [findStat, hxid]
        · have hkx : ¬ k = x := fun h => hx h.symm
          simp [findStat, hkx, ih]

theorem jsOr3_eq (a b : String) (c : Option String) :
    (a ≠ "" ∧ jsOr3 a b c = some a) ∨
    (a = "" ∧ b ≠ "" ∧ jsOr3 a b c = some b) ∨
    (a = "" ∧ b = "" ∧ jsOr3 a b c = c) := by
  unfold jsOr3
  by_cases ha : a = ""
  · by_cases hb : b = ""
    · right; right; simp [ha, hb]
    · right; left; simp [ha, hb]
  · left; simp [ha]

theorem advance_aux (first : String) (tl : List String) (cur : String)
    (c : Option String) :
    jsOr3 ((first :: tl).getD
      (((first :: tl).indexOf cur + 1) % (first :: tl).length) "") first c = c ∨
    ∃ x, jsOr3 ((first :: tl).getD
      (((first :: tl).indexOf cur + 1) % (first :: tl).length) "") first c =
        some x ∧ x ∈ first :: tl := by
  set a := (first :: tl).getD
    (((first :: tl).indexOf cur + 1) % (first :: tl).length) "" with ha
  have hamem : a ∈ first :: tl := by
    rw [ha]
    exact getD_mem_of_lt _ _ (Nat.mod_lt _ (by simp))
  rcases jsOr3_eq a first c with ⟨h1, h2⟩ | ⟨h1, h2, h3⟩ | ⟨h1, h2, h3⟩
  · right; exact ⟨a, h2, hamem⟩
  · right; exact ⟨first, h3, List.mem_cons_self first tl⟩
  · left; exact h3

theorem advanceTurnFrom_mem (gs : GameState) (fromId : Option String) :
    advanceTurnFrom gs fromId = gs.host ∨
    ∃ x, advanceTurnFrom gs fromId = some x ∧ x ∈ getTurnOrder gs := by
  unfold advanceTurnFrom
  cases horder : getTurnOrder gs with
  | nil => left; rfl
  | cons first tl =>
      dsimp only
      exact advance_aux first tl _ gs.host

theorem mem_order_in_players {me : String} {gs : GameState}
    (hhost : HostInv me gs) {x : String} (hx : x ∈ getTurnOrder gs) :
    findStat gs.players x ≠ none := by
  rcases mem_getTurnOrder hx with ⟨hne, hcase⟩
  rcases hcase with hh | hk
  · rcases hhost with h0 | ⟨hme, _, hfind⟩
    · rw [h0] at hh; cases hh
    · rw [hme] at hh
      injection hh with hx2
      rw [← hx2]
      exact hfind
  · exact (findStat_ne_none_iff _ _).mpr hk

theorem advance_ok {me : String} {gs : GameState} (hhost : HostInv me gs)
    (fromId : Option String) :
    advanceTurnFrom gs fromId = none ∨
    ∃ t, advanceTurnFrom gs fromId = some t ∧ findStat gs.players t ≠ none := by
  rcases advanceTurnFrom_mem gs fromId with h | ⟨x, hx, hmem⟩
  · rcases hhost with h0 | ⟨hme, hne, hfind⟩
    · left; rw [h, h0]
    · right; exact ⟨me, by rw [h, hme], hfind⟩
  · right; exact ⟨x, hx, mem_order_in_players hhost hmem⟩

theorem TurnInv_of_fields (me : String) (gs gs2 : GameState)
    (hh : gs2.host = gs.host) (ht : gs2.turn = gs.turn)
    (hempty : findStat gs2.players "" = none)
    (hgrow : ∀ x, findStat gs.players x ≠ none → findStat gs2.players x ≠ none)
    (hinv : TurnInv me gs) : TurnInv me gs2 := by
  obtain ⟨he, hhost, hturn⟩ := hinv
  refine ⟨hempty, ?_, ?_⟩
  · rcases hhost with h0 | ⟨h1, h2, h3⟩
    · left; rw [hh, h0]
    · right; exact ⟨by rw [hh, h1], h2, hgrow me h3⟩
  · rcases hturn with h0 | ⟨t, h1, h2⟩
    · left; rw [ht, h0]
    · right; exact ⟨t, by rw [ht, h1], hgrow t h2⟩

theorem findStat_P2 (ps : List (String × PlayerStats)) (l : String)
    (v : PlayerStats) (x : String) :
    findStat (setStat (ensureStat ps l) l v) x =
      if l = x then some v else findStat ps x := by
  rw [findStat_setStat]
  by_cases h : l = x
  · simp [h]
  · rw [if_neg h, if_neg h, findStat_ensureStat_char]
    have hc : ¬ (x = l ∧ l ≠ "") := fun hc => h hc.1.symm
    rw [if_neg hc]

theorem startPowerRoundHost_shape (gs : GameState) (kind : PowerKind)
    (startedBy : String) (now : Int) :
    ∃ p, startPowerRoundHost gs kind startedBy now = { gs with powerRound := p } := by
  unfold startPowerRoundHost
  split
  case _ => exact ⟨gs.powerRound, rfl⟩
  case _ h heq =>
      by_cases h1 : h = "" ∨ h ≠ startedBy
      · rw [if_pos h1]
        exact ⟨gs.powerRound, rfl⟩
      · rw [if_neg h1]
        by_cases h2 : powerActive gs = true
        · rw [if_pos h2]
          exact ⟨gs.powerRound, rfl⟩
        · rw [if_neg h2]
          exact ⟨_, rfl⟩

theorem kingAddRuleHost_shape (gs : GameState) (by_ text ruleId : String)
    (now : Int) :
    ∃ kr, kingAddRuleHost gs by_ text ruleId now = { gs with kingRules := kr } := by
  unfold kingAddRuleHost
  split
  case _ => exact ⟨gs.kingRules, rfl⟩
  case _ h heq =>
      by_cases h1 : h = "" ∨ h ≠ by_
      · rw [if_pos h1]
        exact ⟨gs.kingRules, rfl⟩
      · rw [if_neg h1]
        dsimp only
        by_cases h2 : text.trim = ""
        · rw [if_pos h2]
          exact ⟨gs.kingRules, rfl⟩
        · rw [if_neg h2]
          exact ⟨_, rfl⟩

theorem kingRemoveRuleHost_shape (gs : GameState) (requestedBy ruleId : String) :
    ∃ kr, kingRemoveRuleHost gs requestedBy ruleId = { gs with kingRules := kr } := by
  unfold kingRemoveRuleHost
  split
  case _ => exact ⟨gs.kingRules, rfl⟩
  case _ rule heq =>
      by_cases h1 : ¬ gs.host = some requestedBy ∧ ¬ rule.by_ = requestedBy
      · rw [if_pos h1]
        exact ⟨gs.kingRules, rfl⟩
      · rw [if_neg h1]
        exact ⟨_, rfl⟩

theorem startWaterfallHost_shape (gs : GameState) (requestedBy : String)
    (now : Int) :
    ∃ w, startWaterfallHost gs requestedBy now = { gs with waterfall := w } := by
  unfold startWaterfallHost
  split
  case _ => exact ⟨gs.waterfall, rfl⟩
  case _ wf heq =>
      by_cases h1 : wf.phase ≠ WPhase.pending
      · rw [if_pos h1]
        exact ⟨gs.waterfall, rfl⟩
      · rw [if_neg h1]
        by_cases h2 : wf.drawer ≠ requestedBy
        · rw [if_pos h2]
          exact ⟨gs.waterfall, rfl⟩
        · rw [if_neg h2]
          exact ⟨_, rfl⟩

theorem bumpPowerLosses_host (gs : GameState) (l : String) :
    (bumpPowerLosses gs l).host = gs.host := by
  cases hf : findStat (ensureStat gs.players l) l <;>
    simp [bumpPowerLosses, ensurePlayer, hf]

theorem bumpPowerLosses_turn (gs : GameState) (l : String) :
    (bumpPowerLosses gs l).turn = gs.turn := by
  cases hf : findStat (ensureStat gs.players l) l <;>
    simp [bumpPowerLosses, ensurePlayer, hf]

theorem bumpPowerLosses_grow (gs : GameState) (l x : String)
    (h : findStat gs.players x ≠ none) :
    findStat (bumpPowerLosses gs l).players x ≠ none := by
  cases hf : findStat (ensureStat gs.players l) l with
  | none =>
      simp only [bumpPowerLosses, ensurePlayer, hf]
      rw [findStat_ensureStat_char]
      by_cases hc : x = l ∧ l ≠ ""
      · simp [hc]
      · simpa [hc] using h
  | some st =>
      simp only [bumpPowerLosses, ensurePlayer, hf]
      rw [findStat_setStat]
      by_cases hc : l = x
      · simp [hc]
      · rw [if_neg hc, findStat_ensureStat_char]
        by_cases hc2 : x = l ∧ l ≠ ""
        · simp [hc2]
        · simpa [hc2] using h

theorem bumpPowerLosses_empty (gs : GameState) (l : String)
    (hemp : findStat gs.players "" = none) :
    findStat (bumpPowerLosses gs l).players "" = none := by
  cases hf : findStat (ensureStat gs.players l) l with
  | none =>
      simp only [bumpPowerLosses, ensurePlayer, hf]
      rw [findStat_ensureStat_char]
      by_cases hc : ("" : String) = l ∧ l ≠ ""
      · exact absurd hc.1.symm hc.2
      · simpa [hc] using hemp
  | some st =>
      simp only [bumpPowerLosses, ensurePlayer, hf]
      rw [findStat_setStat]
      by_cases hc : l = ""
      · rw [hc] at hf
        simp [ensureStat, hemp] at hf
      · rw [if_neg hc, findStat_ensureStat_char]
        have hc2 : ¬ (("" : String) = l ∧ l ≠ "") := fun h2 => hc h2.1.symm
        simpa [hc2] using hemp

theorem ensureStat_empty (ps : List (String × PlayerStats)) (id : String)
    (hemp : findStat ps "" = none) : findStat (ensureStat ps id) "" = none := by
  rw [findStat_ensureStat_char]
  by_cases hc : ("" : String) = id ∧ id ≠ ""
  · exact absurd hc.1.symm hc.2
  · simpa [hc] using hemp

theorem ensureStat_grow (ps : List (String × PlayerStats)) (id x : String)
    (h : findStat ps x ≠ none) : findStat (ensureStat ps id) x ≠ none := by
  rw [findStat_ensureStat_char]
  by_cases hc : x = id ∧ id ≠ "" <;> simp [hc, h]

theorem setStat_ensure_empty (ps : List (String × PlayerStats)) (l : String)
    (v : PlayerStats) (hl : l ≠ "") (hemp : findStat ps "" = none) :
    findStat (setStat (ensureStat ps l) l v) "" = none := by
  rw [findStat_P2]
  have : ¬ l = "" := hl
  rw [if_neg this]
  exact hemp

theorem setStat_ensure_grow (ps : List (String × PlayerStats)) (l : String)
    (v : PlayerStats) (x : String) (h : findStat ps x ≠ none) :
    findStat (setStat (ensureStat ps l) l v) x ≠ none := by
  rw [findStat_P2]
  by_cases hc : l = x
  · simp [hc]
  · rw [if_neg hc]
    exact h

theorem tapPowerHost_shape (gs : GameState) (kind : PowerKind) (by_ : String) :
    tapPowerHost gs kind by_ = gs ∨
    (∃ pr2, tapPowerHost gs kind by_ = { gs with powerRound := some pr2 }) ∨
    (∃ pr2 l, l ≠ "" ∧
      tapPowerHost gs kind by_ = bumpPowerLosses { gs with powerRound := some pr2 } l) := by
  unfold tapPowerHost
  split
  case _ => left; rfl
  case _ pr heq =>
      by_cases h1 : pr.active = false ∨ pr.kind ≠ kind
      · left; rw [if_pos h1]
      · rw [if_neg h1]
        by_cases h2 : by_ = ""
        · left; rw [if_pos h2]
        · rw [if_neg h2]
          by_cases h3 : by_ ∉ pr.eligible
          · left; rw [if_pos h3]
          · rw [if_neg h3]
            by_cases h4 : by_ ∈ pr.tapped
            · left; rw [if_pos h4]
            · rw [if_neg h4]
              dsimp only
              by_cases h5 : (pr.tapped ++ [by_]).length ≥ pr.eligible.length
              · rw [if_pos h5]
                have hjs : jsOrNull (pr.tapped ++ [by_]).getLast? = some by_ := by
                  rw [List.getLast?_concat]
                  simp [jsOrNull, h2]
                rw [hjs]
                right; right
                exact ⟨_, by_, h2, rfl⟩
              · rw [if_neg h5]
                right; left
                exact ⟨_, rfl⟩

theorem tapPowerHost_fields (gs : GameState) (kind : PowerKind) (by_ : String)
    (hemp : findStat gs.players "" = none) :
    (tapPowerHost gs kind by_).host = gs.host ∧
    (tapPowerHost gs kind by_).turn = gs.turn ∧
    findStat (tapPowerHost gs kind by_).players "" = none ∧
    (∀ x, findStat gs.players x ≠ none →
      findStat (tapPowerHost gs kind by_).players x ≠ none) := by
  rcases tapPowerHost_shape gs kind by_ with h | ⟨pr2, h⟩ | ⟨pr2, l, hl, h⟩ <;> rw [h]
  · exact ⟨rfl, rfl, hemp, fun x hx => hx⟩
  · exact ⟨rfl, rfl, hemp, fun x hx => hx⟩
  · exact ⟨bumpPowerLosses_host _ _, bumpPowerLosses_turn _ _,
      bumpPowerLosses_empty _ _ hemp, fun x hx => bumpPowerLosses_grow _ _ _ hx⟩

theorem qmCaughtHost_fields (gs : GameState) (qmBy target : String)
    (hemp : findStat gs.players "" = none) :
    (qmCaughtHost gs qmBy target).host = gs.host ∧
    (qmCaughtHost gs qmBy target).turn = gs.turn ∧
    findStat (qmCaughtHost gs qmBy target).players "" = none ∧
    (∀ x, findStat gs.players x ≠ none →
      findStat (qmCaughtHost gs qmBy target).players x ≠ none) := by
  unfold qmCaughtHost
  split
  case _ => exact ⟨rfl, rfl, hemp, fun x hx => hx⟩
  case _ h heq =>
      by_cases h1 : h = "" ∨ h ≠ qmBy
      · rw [if_pos h1]
        exact ⟨rfl, rfl, hemp, fun x hx => hx⟩
      · rw [if_neg h1]
        by_cases h2 : target = "" ∨ target = qmBy
        · rw [if_pos h2]
          exact ⟨rfl, rfl, hemp, fun x hx => hx⟩
        · rw [if_neg h2]
          push_neg at h2
          dsimp only [ensurePlayer]
          cases hf : findStat (ensureStat gs.players target) target with
          | none =>
              exact ⟨rfl, rfl, ensureStat_empty _ _ hemp,
                fun x hx => ensureStat_grow _ _ _ hx⟩
          | some st =>
              exact ⟨rfl, rfl, setStat_ensure_empty _ _ _ h2.1 hemp,
                fun x hx => setStat_ensure_grow _ _ _ _ hx⟩

theorem changeDrink_fields (gs : GameState) (me : String) (n : Int)
    (hemp : findStat gs.players "" = none) :
    (changeDrink gs me n).host = gs.host ∧
    (changeDrink gs me n).turn = gs.turn ∧
    findStat (changeDrink gs me n).players "" = none ∧
    (∀ x, findStat gs.players x ≠ none →
      findStat (changeDrink gs me n).players x ≠ none) := by
  unfold changeDrink
  dsimp only [ensurePlayer]
  cases hf : findStat (ensureStat gs.players me) me with
  | none =>
      exact ⟨rfl, rfl, ensureStat_empty _ _ hemp,
        fun x hx => ensureStat_grow _ _ _ hx⟩
  | some st =>
      have hme : me ≠ "" := by
        intro h0
        rw [h0] at hf
        simp [ensureStat, hemp] at hf
      exact ⟨rfl, rfl, setStat_ensure_empty _ _ _ hme hemp,
        fun x hx => setStat_ensure_grow _ _ _ _ hx⟩

theorem advanceTurn_ok {me : String} {gs2 : GameState} (hhost : HostInv me gs2) :
    advanceTurn gs2 = none ∨
    ∃ t, advanceTurn gs2 = some t ∧ findStat gs2.players t ≠ none :=
  advance_ok hhost gs2.turn

theorem TurnInv_connectSelf {me : String} {gs : GameState} (hne : me ≠ "")
    (fd : List String) (hinv : TurnInv me gs) :
    TurnInv me (connectSelf gs me fd) := by
  obtain ⟨hemp, hhost, hturn⟩ := hinv
  have hemp1 : findStat (ensureStat gs.players me) "" = none :=
    ensureStat_empty _ _ hemp
  have hme1 : findStat (ensureStat gs.players me) me ≠ none := by
    rw [findStat_ensureStat_char]
    simp [hne]
  unfold connectSelf
  dsimp only [ensurePlayer]
  by_cases h1 : strFalsy gs.host = true
  · rw [if_pos h1]
    exact ⟨hemp1, Or.inr ⟨rfl, hne, hme1⟩, Or.inr ⟨me, rfl, hme1⟩⟩
  · rw [if_neg h1]
    have hhost2 : gs.host = some me ∧ me ≠ "" ∧ findStat gs.players me ≠ none := by
      rcases hhost with h0 | h2
      · rw [h0] at h1
        simp [strFalsy] at h1
      · exact h2
    by_cases h2 : strFalsy gs.turn = true
    · rw [if_pos h2]
      exact ⟨hemp1,
        Or.inr ⟨hhost2.1, hne, ensureStat_grow _ _ _ hhost2.2.2⟩,
        Or.inr ⟨me, hhost2.1, ensureStat_grow _ _ _ hhost2.2.2⟩⟩
    · rw [if_neg h2]
      refine ⟨hemp1,
        Or.inr ⟨hhost2.1, hne, ensureStat_grow _ _ _ hhost2.2.2⟩, ?_⟩
      rcases hturn with h0 | ⟨t, ht1, ht2⟩
      · left; exact h0
      · right; exact ⟨t, ht1, ensureStat_grow _ _ _ ht2⟩

theorem TurnInv_draw {me : String} {gs : GameState} (fd : List String) (rand : ℚ)
    (hinv : TurnInv me gs) : TurnInv me (draw gs me fd rand) := by
  by_cases hl : isDeckLocked gs = true
  · rw [draw_locked _ _ _ _ hl]
    exact hinv
  · have hl2 : isDeckLocked gs = false := by
      cases hb : isDeckLocked gs
      · rfl
      · exact absurd hb hl
    by_cases hh : gs.host = some me
    case neg =>
        have hskip : draw gs me fd rand = gs := by
          simp [draw, hl2, hh]
        rw [hskip]
        exact hinv
    case pos =>
        obtain ⟨hemp, hhost, hturn⟩ := hinv
        have hinfo : me ≠ "" ∧ findStat gs.players me ≠ none := by
          rcases hhost with h0 | ⟨_, h2, h3⟩
          · rw [h0] at hh; cases hh
          · exact ⟨h2, h3⟩
        have hself := findStat_ensureStat_self gs.players me hinfo.1
        have hplayers : (draw gs me fd rand).players =
            setStat (ensureStat gs.players me) me
              { (findStat gs.players me).getD (freshStats me) with
                cardsDrawn :=
                  ((findStat gs.players me).getD (freshStats me)).cardsDrawn + 1 } := by
          by_cases hr : (parseCard (drawnCard gs fd)).1 = "A" <;>
            simp [draw, hl2, hh, hr, bumpCardsDrawn, ensurePlayer, hself]
        have hhost2 : (draw gs me fd rand).host = gs.host := by
          by_cases hr : (parseCard (drawnCard gs fd)).1 = "A" <;>
            simp [draw, hl2, hh, hr, bumpCardsDrawn, ensurePlayer, hself]
        have hempty2 : findStat (draw gs me fd rand).players "" = none := by
          rw [hplayers]
          exact setStat_ensure_empty _ _ _ hinfo.1 hemp
        have hmeafter : findStat (draw gs me fd rand).players me ≠ none := by
          rw [hplayers, findStat_P2]
          simp
        refine ⟨hempty2, Or.inr ⟨by rw [hhost2, hh], hinfo.1, hmeafter⟩, ?_⟩
        by_cases hr : (parseCard (drawnCard gs fd)).1 = "A"
        · have hturn2 : (draw gs me fd rand).turn = some me := by
            simp [draw, hl2, hh, hr, bumpCardsDrawn, ensurePlayer, hself]
          right
          exact ⟨me, hturn2, hmeafter⟩
        · have hturn2 : (draw gs me fd rand).turn =
              advanceTurn { draw gs me fd rand with turn := gs.turn } := by
            simp [draw, hl2, hh, hr, bumpCardsDrawn, ensurePlayer, hself,
              advanceTurn]
          have hhostinv6 :
              HostInv me ({ draw gs me fd rand with turn := gs.turn } : GameState) :=
            Or.inr ⟨by
              show (draw gs me fd rand).host = some me
              rw [hhost2, hh], hinfo.1, hmeafter⟩
          rcases advanceTurn_ok hhostinv6 with h0 | ⟨t, ht1, ht2⟩
          · left
            rw [hturn2]
            exact h0
          · right
            exact ⟨t, by rw [hturn2]; exact ht1, ht2⟩

theorem tickWaterfallHost_shape (gs : GameState) (now : Int) :
    tickWaterfallHost gs now = gs ∨
    tickWaterfallHost gs now =
      { ({ gs with waterfall := none } : GameState) with
          turn := advanceTurn { gs with waterfall := none } } := by
  unfold tickWaterfallHost
  split
  case _ => left; rfl
  case _ wf heq =>
      split
      case _ => left; rfl
      case _ st heq2 =>
          by_cases h1 : wf.phase ≠ WPhase.active ∨ st = 0
          · left; rw [if_pos h1]
          · rw [if_neg h1]
            by_cases h2 : ((now - st : ℚ) / 1000) ≥ (wf.durationSec : ℚ)
            · right; rw [if_pos h2]
            · left; rw [if_neg h2]

theorem TurnInv_tick {me : String} {gs : GameState} (now : Int)
    (hinv : TurnInv me gs) : TurnInv me (tickWaterfallHost gs now) := by
  rcases tickWaterfallHost_shape gs now with h | h
  · rw [h]; exact hinv
  · rw [h]
    obtain ⟨hemp, hhost, hturn⟩ := hinv
    have hhost1 : HostInv me ({ gs with waterfall := none } : GameState) := by
      rcases hhost with h0 | ⟨h1, h2, h3⟩
      · left; exact h0
      · right; exact ⟨h1, h2, h3⟩
    refine ⟨hemp, ?_, ?_⟩
    · rcases hhost with h0 | ⟨h1, h2, h3⟩
      · left; exact h0
      · right; exact ⟨h1, h2, h3⟩
    · rcases advanceTurn_ok hhost1 with h0 | ⟨t, ht1, ht2⟩
      · left; exact h0
      · right; exact ⟨t, ht1, ht2⟩

theorem TurnInv_peerJoin {me : String} {gs : GameState} (id : String)
    (hid : id ≠ "") (hinv : TurnInv me gs) : TurnInv me (onPeerConnected gs id) := by
  obtain ⟨hemp, hhost, hturn⟩ := hinv
  have hemp1 := ensureStat_empty gs.players id hemp
  have hhost1 : HostInv me ({ gs with players := ensureStat gs.players id } : GameState) := by
    rcases hhost with h0 | ⟨h1, h2, h3⟩
    · left; exact h0
    · right; exact ⟨h1, h2, ensureStat_grow _ _ _ h3⟩
  unfold onPeerConnected
  dsimp only [ensurePlayer]
  by_cases ht : strFalsy gs.turn = true
  · rw [if_pos ht]
    refine ⟨hemp1, hhost1, ?_⟩
    rcases hhost with h0 | ⟨h1, h2, h3⟩
    · right
      refine ⟨id, ?_, ?_⟩
      · rw [h0]
        simp [jsOrS]
      · rw [findStat_ensureStat_char]
        simp [hid]
    · right
      refine ⟨me, ?_, ensureStat_grow _ _ _ h3⟩
      rw [h1]
      simp [jsOrS, h2]
  · rw [if_neg ht]
    refine ⟨hemp1, hhost1, ?_⟩
    rcases hturn with h0 | ⟨t, ht1, ht2⟩
    · left; exact h0
    · right; exact ⟨t, ht1, ensureStat_grow _ _ _ ht2⟩

theorem TurnInv_discPlayers {me : String} {gs : GameState} (id : String)
    (hme : id ≠ me) (hinv : TurnInv me gs) :
    TurnInv me (discPlayers gs id) := by
  obtain ⟨hemp, hhost, hturn⟩ := hinv
  have hemp1 : findStat (removeStat gs.players id) "" = none := by
    rw [findStat_removeStat]
    by_cases hc : ("" : String) = id
    · simp [hc]
    · rw [if_neg hc]; exact hemp
  have hhost1 : HostInv me ({ gs with players := removeStat gs.players id } : GameState) := by
    rcases hhost with h0 | ⟨h1, h2, h3⟩
    · left; exact h0
    · right
      refine ⟨h1, h2, ?_⟩
      show findStat (removeStat gs.players id) me ≠ none
      rw [findStat_removeStat, if_neg (fun h : me = id => hme h.symm)]
      exact h3
  unfold discPlayers
  dsimp only
  by_cases hcond : gs.turn = some id
  · rw [if_pos hcond]
    refine ⟨hemp1, hhost1, ?_⟩
    rcases advanceTurn_ok hhost1 with h0 | ⟨t, ht1, ht2⟩
    · left; exact h0
    · right; exact ⟨t, ht1, ht2⟩
  · rw [if_neg hcond]
    refine ⟨hemp1, hhost1, ?_⟩
    rcases hturn with h0 | ⟨t, ht1, ht2⟩
    · left; exact h0
    · right
      refine ⟨t, ht1, ?_⟩
      show findStat (removeStat gs.players id) t ≠ none
      rw [findStat_removeStat]
      have htid : ¬ t = id := by
        intro h
        rw [h] at ht1
        exact hcond ht1
      rw [if_neg htid]
      exact ht2

theorem TurnInv_discBadges {me : String} {gs : GameState} (id : String)
    (hinv : TurnInv me gs) : TurnInv me (discBadges gs id) := by
  obtain ⟨hemp, hhost, hturn⟩ := hinv
  exact ⟨hemp, hhost, hturn⟩

theorem jsOrNull_some {o : Option String} {l : String}
    (h : jsOrNull o = some l) : l ≠ "" := by
  cases o with
  | none => simp [jsOrNull] at h
  | some v =>
      by_cases hv : v = ""
      · simp [jsOrNull, hv] at h
      · simp [jsOrNull, hv] at h
        rw [← h]
        exact hv

theorem discPower_shape (gs : GameState) (id : String) :
    discPower gs id = gs ∨
    (∃ pr2, discPower gs id = { gs with powerRound := some pr2 }) ∨
    (∃ pr2 l, l ≠ "" ∧
      discPower gs id = bumpPowerLosses { gs with powerRound := some pr2 } l) := by
  unfold discPower
  split
  case _ pr heq =>
      by_cases h1 : pr.active = true
      · rw [if_pos h1]
        dsimp only
        by_cases h2 : 0 < (pr.eligible.filter (fun x => x ≠ id)).length ∧
            (pr.eligible.filter (fun x => x ≠ id)).length ≤
              (pr.tapped.filter (fun x => x ≠ id)).length
        · rw [if_pos h2]
          cases hj : jsOrNull ((pr.tapped.filter (fun x => x ≠ id)).getLast?) with
          | none =>
              right; left
              exact ⟨_, rfl⟩
          | some l =>
              right; right
              exact ⟨_, l, jsOrNull_some hj, rfl⟩
        · rw [if_neg h2]
          right; left
          exact ⟨_, rfl⟩
      · rw [if_neg h1]
        left; rfl
  case _ => left; rfl

theorem TurnInv_discPower {me : String} {gs : GameState} (id : String)
    (hinv : TurnInv me gs) : TurnInv me (discPower gs id) := by
  rcases discPower_shape gs id with h | ⟨pr2, h⟩ | ⟨pr2, l, hl, h⟩ <;> rw [h]
  · exact hinv
  · exact TurnInv_of_fields me gs _ rfl rfl hinv.1 (fun x hx => hx) hinv
  · exact TurnInv_of_fields me _ _ (bumpPowerLosses_host _ _)
      (bumpPowerLosses_turn _ _) (bumpPowerLosses_empty _ _ hinv.1)
      (fun x hx => bumpPowerLosses_grow _ _ _ hx) hinv

theorem TurnInv_discWaterfall {me : String} {gs : GameState} (id : String)
    (hinv : TurnInv me gs) : TurnInv me (discWaterfall gs id) := by
  unfold discWaterfall
  split
  case _ wf heq =>
      by_cases hd : wf.drawer = id
      · rw [if_pos hd]
        obtain ⟨hemp, hhost, hturn⟩ := hinv
        have hhost1 : HostInv me ({ gs with waterfall := none } : GameState) := by
          rcases hhost with h0 | ⟨h1, h2, h3⟩
          · left; exact h0
          · right; exact ⟨h1, h2, h3⟩
        refine ⟨hemp, hhost1, ?_⟩
        rcases advanceTurn_ok hhost1 with h0 | ⟨t, ht1, ht2⟩
        · left; exact h0
        · right; exact ⟨t, ht1, ht2⟩
      · rw [if_neg hd]
        exact hinv
  case _ => exact hinv

theorem TurnInv_step {me : String} {gs gs2 : GameState}
    (hinv : TurnInv me gs) (hs : Step me gs gs2) : TurnInv me gs2 := by
  cases hs with
  | conn hne fd => exact TurnInv_connectSelf hne fd hinv
  | drawCard fd rand => exact TurnInv_draw fd rand hinv
  | drink n =>
      have f := changeDrink_fields gs me n hinv.1
      exact TurnInv_of_fields me gs _ f.1 f.2.1 f.2.2.1 f.2.2.2 hinv
  | pStart hh kind requestedBy now =>
      obtain ⟨p, hp⟩ := startPowerRoundHost_shape gs kind requestedBy now
      rw [hp]
      exact TurnInv_of_fields me gs _ rfl rfl hinv.1 (fun x hx => hx) hinv
  | pTap hh kind by_ =>
      have f := tapPowerHost_fields gs kind by_ hinv.1
      exact TurnInv_of_fields me gs _ f.1 f.2.1 f.2.2.1 f.2.2.2 hinv
  | pClear hh =>
      exact TurnInv_of_fields me gs _ rfl rfl hinv.1 (fun x hx => hx) hinv
  | wfStart hh requestedBy now =>
      obtain ⟨w, hw⟩ := startWaterfallHost_shape gs requestedBy now
      rw [hw]
      exact TurnInv_of_fields me gs _ rfl rfl hinv.1 (fun x hx => hx) hinv
  | wfTick hh now => exact TurnInv_tick now hinv
  | qmTag hh requestedBy target =>
      have f := qmCaughtHost_fields gs requestedBy target hinv.1
      exact TurnInv_of_fields me gs _ f.1 f.2.1 f.2.2.1 f.2.2.2 hinv
  | kAdd hh requestedBy text ruleId now =>
      obtain ⟨kr, hk⟩ := kingAddRuleHost_shape gs requestedBy text ruleId now
      rw [hk]
      exact TurnInv_of_fields me gs _ rfl rfl hinv.1 (fun x hx => hx) hinv
  | kRemove hh requestedBy ruleId =>
      obtain ⟨kr, hk⟩ := kingRemoveRuleHost_shape gs requestedBy ruleId
      rw [hk]
      exact TurnInv_of_fields me gs _ rfl rfl hinv.1 (fun x hx => hx) hinv
  | peerJoin id hne => exact TurnInv_peerJoin id hne hinv
  | peerLeave id hme hne =>
      exact TurnInv_discWaterfall id
        (TurnInv_discPower id (TurnInv_discBadges id (TurnInv_discPlayers id hme hinv)))

/-- C5: in every state reachable from the empty initial state through the
client's events — connect, draw, changeDrink, power-round transitions,
waterfall transitions, and peer joined/left reconciliation — the turn is
either unset or names an identity that has a record in players. -/
theorem turn_validity_reachable (me : String) (gs : GameState)
    (h : Reachable me gs) :
    gs.turn = none ∨ ∃ t, gs.turn = some t ∧ findStat gs.players t ≠ none := by
  have hinv : TurnInv me gs := by
    induction h with
    | init => exact ⟨rfl, Or.inl rfl, Or.inl rfl⟩
    | step hr hs ih => exact TurnInv_step ih hs
  exact hinv.2.2

/-- Witness for C5: the state reached by connecting as "a" from scratch
has its turn set to the present player "a". -/
theorem turn_validity_reachable_witness :
    (connectSelf emptyState "a" buildDeck).turn = none ∨
    ∃ t, (connectSelf emptyState "a" buildDeck).turn = some t ∧
      findStat (connectSelf emptyState "a" buildDeck).players t ≠ none :=
  turn_validity_reachable "a" _
    (Reachable.step Reachable.init (Step.conn (by decide) buildDeck))

theorem str_mk_toList (s : String) : String.mk s.toList = s := rfl

theorem parseStrBody_escape (l rest : List Char) :
    parseStrBody (escapeChars l ++ '"' :: rest) = some (l, rest) := by
  induction l with
  | nil =>
      simp only [escapeChars, List.nil_append]
      unfold parseStrBody
      simp
  | cons c cs ih =>
      by_cases h1 : c = '"'
      · subst h1
        simp [escapeChars, parseStrBody, ih]
      · by_cases h2 : c = '\\'
        · subst h2
          simp [escapeChars, parseStrBody, ih]
        · have he : escapeChars (c :: cs) = c :: escapeChars cs := by
            conv_lhs => unfold escapeChars
            simp [h1, h2]
          rw [he, List.cons_append]
          unfold parseStrBody
          simp [h1, h2, ih]

theorem digitChar_facts (d : Nat) (hd : d < 10) :
    isDigitCh (digitChar d) = true ∧ charVal (digitChar d) = d ∧
    digitChar d ≠ '"' ∧ digitChar d ≠ '[' ∧ digitChar d ≠ lbrace ∧
    digitChar d ≠ 't' ∧ digitChar d ≠ 'f' ∧ digitChar d ≠ 'n' ∧
    digitChar d ≠ '-' ∧ digitChar d ≠ ']' ∧ digitChar d ≠ ',' ∧
    digitChar d ≠ rbrace := by
  interval_cases d <;> decide

theorem parseDigits_append (ds : List Nat) (rest : List Char)
    (hds : ∀ d ∈ ds, d < 10)
    (hrest : ∀ c, rest.head? = some c → isDigitCh c = false) :
    parseDigits (ds.map digitChar ++ rest) = (ds, rest) := by
  induction ds with
  | nil =>
      cases rest with
      | nil => rfl
      | cons c r =>
          have hc : isDigitCh c = false := hrest c rfl
          simp [parseDigits, hc]
  | cons d ds ih =>
      have hd := hds d (List.mem_cons_self d ds)
      obtain ⟨h1, h2, -⟩ := digitChar_facts d hd
      simp [parseDigits, h1, h2, ih (fun x hx => hds x (List.mem_cons_of_mem d hx))]

theorem natDigitsMSD_lt (n d : Nat) (hd : d ∈ natDigitsMSD n) : d < 10 := by
  unfold natDigitsMSD at hd
  by_cases hn : n = 0
  · rw [if_pos hn] at hd
    simp at hd
    omega
  · rw [if_neg hn] at hd
    exact Nat.digits_lt_base (by norm_num) (List.mem_reverse.mp hd)

theorem natDigitsMSD_ne_nil (n : Nat) : natDigitsMSD n ≠ [] := by
  unfold natDigitsMSD
  by_cases hn : n = 0
  · rw [if_pos hn]
    simp
  · rw [if_neg hn]
    simp [Nat.digits_ne_nil_iff_ne_zero, hn]

theorem natOfDigitsMSD_msd (n : Nat) : natOfDigitsMSD (natDigitsMSD n) = n := by
  unfold natOfDigitsMSD natDigitsMSD
  by_cases hn : n = 0
  · rw [if_pos hn]
    subst hn
    decide
  · rw [if_neg hn]
    simp [Nat.ofDigits_digits]

theorem emitNat_ne_nil (n : Nat) : emitNat n ≠ [] := by
  unfold emitNat
  simp [natDigitsMSD_ne_nil]

theorem emitInt_ne_nil (n : Int) : emitInt n ≠ [] := by
  unfold emitInt
  by_cases hn : n < 0
  · rw [if_pos hn]
    simp
  · rw [if_neg hn]
    exact emitNat_ne_nil _

theorem parseVal_cons (fuel : Nat) (c : Char) (rest : List Char) :
    parseVal (fuel + 1) (c :: rest) =
      (if c = '"' then
        match parseStrBody rest with
        | some p => some (Json.str (String.mk p.1), p.2)
        | none => none
      else if c = '[' then
        match rest with
        | ']' :: r2 => some (Json.arr [], r2)
        | _ =>
            match parseItems fuel rest with
            | some p => some (Json.arr p.1, p.2)
            | none => none
      else if c = lbrace then
        match rest with
        | [] => none
        | c2 :: r2 =>
            if c2 = rbrace then some (Json.obj [], r2)
            else
              match parseFields fuel rest with
              | some p => some (Json.obj p.1, p.2)
              | none => none
      else if c = 't' then
        match rest with
        | 'r' :: 'u' :: 'e' :: r2 => some (Json.bool true, r2)
        | _ => none
      else if c = 'f' then
        match rest with
        | 'a' :: 'l' :: 's' :: 'e' :: r2 => some (Json.bool false, r2)
        | _ => none
      else if c = 'n' then
        match rest with
        | 'u' :: 'l' :: 'l' :: r2 => some (Json.null, r2)
        | _ => none
      else if c = '-' then
        match parseDigits rest with
        | ([], _) => none
        | (ds, r2) => some (Json.num (-(natOfDigitsMSD ds : Int)), r2)
      else if isDigitCh c then
        let p := parseDigits (c :: rest)
        some (Json.num (natOfDigitsMSD p.1 : Int), p.2)
      else none) := rfl

theorem parseItems_succ (fuel : Nat) (cs : List Char) :
    parseItems (fuel + 1) cs =
      (match parseVal fuel cs with
      | none => none
      | some (v, r) =>
          match r with
          | ',' :: r2 =>
              match parseItems fuel r2 with
              | some p => some (v :: p.1, p.2)
              | none => none
          | ']' :: r2 => some ([v], r2)
          | _ => none) := rfl

theorem parseFields_succ (fuel : Nat) (cs : List Char) :
    parseFields (fuel + 1) cs =
      (match cs with
      | '"' :: r1 =>
          match parseStrBody r1 with
          | none => none
          | some (kcs, r2) =>
              match r2 with
              | ':' :: r3 =>
                  match parseVal fuel r3 with
                  | none => none
                  | some (v, r4) =>
                      match r4 with
                      | ',' :: r5 =>
                          match parseFields fuel r5 with
                          | some p => some ((String.mk kcs, v) :: p.1, p.2)
                          | none => none
                      | c4 :: r5 =>
                          if c4 = rbrace then some ([(String.mk kcs, v)], r5)
                          else none
                      | [] => none
              | _ => none
      | _ => none) := rfl

theorem parseVal_num (fuel : Nat) (n : Int) (rest : List Char)
    (hrest : ∀ c, rest.head? = some c → isDigitCh c = false) :
    parseVal (fuel + 1) (emitInt n ++ rest) = some (Json.num n, rest) := by
  unfold emitInt
  by_cases hn : n < 0
  · rw [if_pos hn]
    have hds : parseDigits (emitNat n.natAbs ++ rest) = (natDigitsMSD n.natAbs, rest) :=
      parseDigits_append _ _ (fun d hd => natDigitsMSD_lt _ d hd) hrest
    obtain ⟨d0, ds0, hmsd⟩ : ∃ d0 ds0, natDigitsMSD n.natAbs = d0 :: ds0 := by
      cases h : natDigitsMSD n.natAbs with
      | nil => exact absurd h (natDigitsMSD_ne_nil _)
      | cons a l => exact ⟨a, l, rfl⟩
    rw [List.cons_append]
    rw [parseVal_cons]
    rw [if_neg (by decide), if_neg (by decide), if_neg (by decide), if_neg (by decide),
      if_neg (by decide), if_neg (by decide), if_pos rfl]
    rw [hds, hmsd]
    dsimp only
    rw [← hmsd, natOfDigitsMSD_msd]
    rw [show (-((n.natAbs : Nat) : Int)) = n by omega]
  · rw [if_neg hn]
    obtain ⟨d0, ds0, hmsd⟩ : ∃ d0 ds0, natDigitsMSD n.toNat = d0 :: ds0 := by
      cases h : natDigitsMSD n.toNat with
      | nil => exact absurd h (natDigitsMSD_ne_nil _)
      | cons a l => exact ⟨a, l, rfl⟩
    have hd0 : d0 < 10 := natDigitsMSD_lt n.toNat d0 (by rw [hmsd]; exact List.mem_cons_self _ _)
    obtain ⟨h1, -, h3, h4, h5, h6, h7, h8, h9, -, -, -⟩ := digitChar_facts d0 hd0
    have hemit : emitNat n.toNat ++ rest = digitChar d0 :: (ds0.map digitChar ++ rest) := by
      unfold emitNat
      rw [hmsd]
      simp
    rw [hemit]
    rw [parseVal_cons]
    rw [if_neg h3, if_neg h4, if_neg h5, if_neg h6, if_neg h7, if_neg h8, if_neg h9, if_pos h1]
    have hds : parseDigits ((d0 :: ds0).map digitChar ++ rest) = (d0 :: ds0, rest) :=
      parseDigits_append _ _ (fun d hd => natDigitsMSD_lt _ d (by rw [hmsd]; exact hd)) hrest
    dsimp only
    rw [← List.cons_append, ← List.map_cons, hds]
    rw [← hmsd, natOfDigitsMSD_msd]
    rw [show ((n.toNat : Nat) : Int) = n by omega]

theorem emitJson_head (j : Json) :
    ∃ c cs, emitJson j = c :: cs ∧ c ≠ ']' ∧ c ≠ rbrace := by
  cases j with
  | null => exact ⟨'n', _, rfl, by decide, by decide⟩
  | bool b =>
      cases b with
      | false => exact ⟨'f', _, rfl, by decide, by decide⟩
      | true => exact ⟨'t', _, rfl, by decide, by decide⟩
  | num n =>
      by_cases hn : n < 0
      · refine ⟨'-', emitNat n.natAbs, ?_, by decide, by decide⟩
        show emitInt n = _
        unfold emitInt
        rw [if_pos hn]
      · obtain ⟨d0, ds0, hmsd⟩ : ∃ d0 ds0, natDigitsMSD n.toNat = d0 :: ds0 := by
          cases h : natDigitsMSD n.toNat with
          | nil => exact absurd h (natDigitsMSD_ne_nil _)
          | cons a l => exact ⟨a, l, rfl⟩
        have hd0 : d0 < 10 :=
          natDigitsMSD_lt n.toNat d0 (by rw [hmsd]; exact List.mem_cons_self _ _)
        obtain ⟨-, -, -, -, -, -, -, -, -, h10, -, h12⟩ := digitChar_facts d0 hd0
        refine ⟨digitChar d0, ds0.map digitChar, ?_, h10, h12⟩
        show emitInt n = _
        unfold emitInt
        rw [if_neg hn]
        unfold emitNat
        rw [hmsd]
        simp
  | str s => exact ⟨'"', _, rfl, by decide, by decide⟩
  | arr l => exact ⟨'[', _, rfl, by decide, by decide⟩
  | obj fs => exact ⟨lbrace, _, rfl, by decide, by decide⟩

theorem emitItems_cons (x : Json) (xs : List Json) :
    ∃ t, emitItems (x :: xs) = emitJson x ++ t := by
  cases xs with
  | nil => exact ⟨[], (List.append_nil _).symm⟩
  | cons y ys => exact ⟨',' :: emitItems (y :: ys), rfl⟩

theorem emitFields_head (f : String × Json) (fs : List (String × Json)) :
    ∃ t, emitFields (f :: fs) = '"' :: t := by
  obtain ⟨k, v⟩ := f
  cases fs with
  | nil => exact ⟨_, rfl⟩
  | cons g gs => exact ⟨_, rfl⟩

theorem jsize_pos (j : Json) : 1 ≤ jsize j := by
  cases j <;> simp [jsize]

theorem jsize_emit_all (n : Nat) :
    (∀ j : Json, jsize j ≤ n → jsize j ≤ (emitJson j).length) ∧
    (∀ l : List Json, itemsSize l ≤ n → itemsSize l ≤ (emitItems l).length + 1) ∧
    (∀ fs : List (String × Json), fieldsSize fs ≤ n →
      fieldsSize fs ≤ (emitFields fs).length + 1) := by
  induction n with
  | zero =>
      refine ⟨?_, ?_, ?_⟩
      · intro j hj
        have := jsize_pos j
        omega
      · intro l hl
        omega
      · intro fs hfs
        omega
  | succ n ih =>
      obtain ⟨ihJ, ihI, ihF⟩ := ih
      refine ⟨?_, ?_, ?_⟩
      · intro j hj
        cases j with
        | null => simp [jsize, emitJson]
        | bool b => cases b <;> simp [jsize, emitJson]
        | num k =>
            have h1 : emitInt k ≠ [] := emitInt_ne_nil k
            have h2 : 0 < (emitInt k).length := List.length_pos.mpr h1
            have e : jsize (Json.num k) = 1 := rfl
            have e2 : emitJson (Json.num k) = emitInt k := rfl
            rw [e, e2]
            omega
        | str s =>
            have e : jsize (Json.str s) = 1 := rfl
            have e2 : (emitJson (Json.str s)).length
                = (escapeChars s.toList).length + 2 := by
              simp only [emitJson, List.length_cons, List.length_append,
                List.length_singleton, List.length_nil]
            omega
        | arr l =>
            have e : jsize (Json.arr l) = itemsSize l + 1 := rfl
            have hl : itemsSize l ≤ n := by omega
            have h2 := ihI l hl
            have e2 : (emitJson (Json.arr l)).length = (emitItems l).length + 2 := by
              simp only [emitJson, List.length_cons, List.length_append,
                List.length_singleton, List.length_nil]
            omega
        | obj gfs =>
            have e : jsize (Json.obj gfs) = fieldsSize gfs + 1 := rfl
            have hl : fieldsSize gfs ≤ n := by omega
            have h2 := ihF gfs hl
            have e2 : (emitJson (Json.obj gfs)).length = (emitFields gfs).length + 2 := by
              simp only [emitJson, List.length_cons, List.length_append,
                List.length_singleton, List.length_nil]
            omega
      · intro l hl
        cases l with
        | nil => simp [itemsSize]
        | cons x xs =>
            have e : itemsSize (x :: xs) = jsize x + itemsSize xs + 1 := rfl
            have hx : jsize x ≤ n := by omega
            have hxs : itemsSize xs ≤ n := by omega
            have h1 := ihJ x hx
            have h2 := ihI xs hxs
            cases xs with
            | nil =>
                have e0 : itemsSize ([] : List Json) = 0 := rfl
                have e3 : (emitItems [x]).length = (emitJson x).length := rfl
                omega
            | cons y ys =>
                have e3 : (emitItems (x :: y :: ys)).length
                    = (emitJson x).length + (emitItems (y :: ys)).length + 1 := by
                  simp only [emitItems, List.length_append, List.length_cons]
                  omega
                omega
      · intro fs hfs
        cases fs with
        | nil => simp [fieldsSize]
        | cons f fs' =>
            obtain ⟨k, v⟩ := f
            have e : fieldsSize ((k, v) :: fs') = jsize v + fieldsSize fs' + 1 := rfl
            have hv : jsize v ≤ n := by omega
            have hfs' : fieldsSize fs' ≤ n := by omega
            have h1 := ihJ v hv
            have h2 := ihF fs' hfs'
            cases fs' with
            | nil =>
                have e0 : fieldsSize ([] : List (String × Json)) = 0 := rfl
                have e3 : (emitFields [(k, v)]).length
                    = (escapeChars k.toList).length + (emitJson v).length + 3 := by
                  simp only [emitFields, List.length_cons, List.length_append]
                  omega
                omega
            | cons g gs =>
                have e3 : (emitFields ((k, v) :: g :: gs)).length
                    = (escapeChars k.toList).length + (emitJson v).length
                      + (emitFields (g :: gs)).length + 4 := by
                  simp only [emitFields, List.length_cons, List.length_append]
                  omega
                omega

theorem jsize_le_emit (j : Json) : jsize j ≤ (emitJson j).length :=
  (jsize_emit_all (jsize j)).1 j (Nat.le_refl _)

theorem parse_emit (fuel : Nat) :
    (∀ (j : Json) (rest : List Char), jsize j < fuel →
      (∀ c, rest.head? = some c → isDigitCh c = false) →
      parseVal fuel (emitJson j ++ rest) = some (j, rest)) ∧
    (∀ (l : List Json) (rest : List Char), l ≠ [] → itemsSize l < fuel →
      parseItems fuel (emitItems l ++ ']' :: rest) = some (l, rest)) ∧
    (∀ (fs : List (String × Json)) (rest : List Char), fs ≠ [] → fieldsSize fs < fuel →
      parseFields fuel (emitFields fs ++ rbrace :: rest) = some (fs, rest)) := by
  induction fuel with
  | zero =>
      refine ⟨?_, ?_, ?_⟩
      · intro j rest h _
        omega
      · intro l rest _ h
        omega
      · intro fs rest _ h
        omega
  | succ fuel ih =>
      obtain ⟨ihV, ihI, ihF⟩ := ih
      refine ⟨?_, ?_, ?_⟩
      · intro j rest hsz hrest
        cases j with
        | null =>
            show parseVal (fuel + 1) ('n' :: 'u' :: 'l' :: 'l' :: rest)
              = some (Json.null, rest)
            rw [parseVal_cons, if_neg (by decide), if_neg (by decide),
              if_neg (by decide), if_neg (by decide), if_neg (by decide), if_pos rfl]
            rfl
        | bool b =>
            cases b with
            | false =>
                show parseVal (fuel + 1) ('f' :: 'a' :: 'l' :: 's' :: 'e' :: rest)
                  = some (Json.bool false, rest)
                rw [parseVal_cons, if_neg (by decide), if_neg (by decide),
                  if_neg (by decide), if_neg (by decide), if_pos rfl]
                rfl
            | true =>
                show parseVal (fuel + 1) ('t' :: 'r' :: 'u' :: 'e' :: rest)
                  = some (Json.bool true, rest)
                rw [parseVal_cons, if_neg (by decide), if_neg (by decide),
                  if_neg (by decide), if_pos rfl]
                rfl
        | num k => exact parseVal_num fuel k rest hrest
        | str s =>
            have hs := parseStrBody_escape s.toList rest
            have he : emitJson (Json.str s) ++ rest
                = '"' :: (escapeChars s.toList ++ '"' :: rest) := by
              show ('"' :: (escapeChars s.toList ++ ['"'])) ++ rest = _
              simp
            rw [he, parseVal_cons, if_pos rfl, hs]
            dsimp only
            rw [str_mk_toList]
        | arr l =>
            cases l with
            | nil =>
                show parseVal (fuel + 1) ('[' :: ']' :: rest) = some (Json.arr [], rest)
                rw [parseVal_cons, if_neg (by decide), if_pos rfl]
                rfl
            | cons x xs =>
                have e : jsize (Json.arr (x :: xs)) = itemsSize (x :: xs) + 1 := rfl
                have hii := ihI (x :: xs) rest (by simp) (by omega)
                obtain ⟨c, cs, hc, hcne, -⟩ := emitJson_head x
                obtain ⟨t, ht⟩ := emitItems_cons x xs
                have hin : emitJson (Json.arr (x :: xs)) ++ rest
                    = '[' :: (emitItems (x :: xs) ++ ']' :: rest) := by
                  show ('[' :: (emitItems (x :: xs) ++ [']'])) ++ rest = _
                  simp
                rw [hin, parseVal_cons]
                rw [if_neg (by decide), if_pos rfl]
                split
                · next r2 heq =>
                    rw [ht, hc] at heq
                    simp only [List.cons_append, List.append_assoc] at heq
                    injection heq with h1 h2
                    exact absurd h1 hcne
                · next =>
                    rw [hii]
        | obj gfs =>
            cases gfs with
            | nil =>
                show parseVal (fuel + 1) (lbrace :: rbrace :: rest)
                  = some (Json.obj [], rest)
                rw [parseVal_cons, if_neg (by decide), if_neg (by decide), if_pos rfl]
                rfl
            | cons f fs2 =>
                have e : jsize (Json.obj (f :: fs2)) = fieldsSize (f :: fs2) + 1 := rfl
                have hff := ihF (f :: fs2) rest (by simp) (by omega)
                obtain ⟨t, ht⟩ := emitFields_head f fs2
                have hin : emitJson (Json.obj (f :: fs2)) ++ rest
                    = lbrace :: (emitFields (f :: fs2) ++ rbrace :: rest) := by
                  show (lbrace :: (emitFields (f :: fs2) ++ [rbrace])) ++ rest = _
                  simp
                rw [hin, parseVal_cons]
                rw [if_neg (by decide), if_neg (by decide), if_pos rfl]
                split
                · next heq =>
                    rw [ht] at heq
                    simp only [List.cons_append] at heq
                    exact absurd heq (by simp)
                · next c2 r2 heq =>
                    rw [ht] at heq
                    simp only [List.cons_append] at heq
                    injection heq with h1 h2
                    rw [if_neg (by rw [← h1]; decide)]
                    rw [hff]
      · intro l rest hne hsz
        cases l with
        | nil => exact absurd rfl hne
        | cons x xs =>
            have e : itemsSize (x :: xs) = jsize x + itemsSize xs + 1 := rfl
            have hx : jsize x < fuel := by omega
            cases xs with
            | nil =>
                have hv := ihV x (']' :: rest) hx
                  (by intro c0 hc0; simp at hc0; subst hc0; decide)
                have he : emitItems [x] ++ ']' :: rest = emitJson x ++ ']' :: rest := rfl
                rw [he, parseItems_succ, hv]
                rfl
            | cons y ys =>
                have hv := ihV x (',' :: (emitItems (y :: ys) ++ ']' :: rest)) hx
                  (by intro c0 hc0; simp at hc0; subst hc0; decide)
                have hi := ihI (y :: ys) rest (by simp) (by omega)
                have he : emitItems (x :: y :: ys) ++ ']' :: rest
                    = emitJson x ++ (',' :: (emitItems (y :: ys) ++ ']' :: rest)) := by
                  show (emitJson x ++ ',' :: emitItems (y :: ys)) ++ ']' :: rest = _
                  simp
                rw [he, parseItems_succ, hv]
                show (match parseItems fuel (emitItems (y :: ys) ++ ']' :: rest) with
                  | some p => some (x :: p.1, p.2)
                  | none => none) = some (x :: y :: ys, rest)
                rw [hi]
      · intro fs rest hne hsz
        cases fs with
        | nil => exact absurd rfl hne
        | cons f fs2 =>
            obtain ⟨k, v⟩ := f
            have e : fieldsSize ((k, v) :: fs2) = jsize v + fieldsSize fs2 + 1 := rfl
            have hjv : jsize v < fuel := by omega
            cases fs2 with
            | nil =>
                have hv := ihV v (rbrace :: rest) hjv
                  (by intro c0 hc0; simp at hc0; subst hc0; decide)
                have hs := parseStrBody_escape k.toList
                  (':' :: (emitJson v ++ rbrace :: rest))
                have he : emitFields [(k, v)] ++ rbrace :: rest
                    = '"' :: (escapeChars k.toList
                        ++ '"' :: (':' :: (emitJson v ++ rbrace :: rest))) := by
                  show ('"' :: (escapeChars k.toList ++ '"' :: ':' :: emitJson v))
                      ++ rbrace :: rest = _
                  simp
                rw [he, parseFields_succ]
                show (match parseStrBody (escapeChars k.toList
                      ++ '"' :: (':' :: (emitJson v ++ rbrace :: rest))) with
                  | none => none
                  | some (kcs, r2) =>
                      match r2 with
                      | ':' :: r3 =>
                          match parseVal fuel r3 with
                          | none => none
                          | some (v2, r4) =>
                              match r4 with
                              | ',' :: r5 =>
                                  match parseFields fuel r5 with
                                  | some p => some ((String.mk kcs, v2) :: p.1, p.2)
                                  | none => none
                              | c4 :: r5 =>
                                  if c4 = rbrace then some ([(String.mk kcs, v2)], r5)
                                  else none
                              | [] => none
                      | _ => none) = some ([(k, v)], rest)
                rw [hs]
                show (match parseVal fuel (emitJson v ++ rbrace :: rest) with
                  | none => none
                  | some (v2, r4) =>
                      match r4 with
                      | ',' :: r5 =>
                          match parseFields fuel r5 with
                          | some p => some ((String.mk k.toList, v2) :: p.1, p.2)
                          | none => none
                      | c4 :: r5 =>
                          if c4 = rbrace then some ([(String.mk k.toList, v2)], r5)
                          else none
                      | [] => none) = some ([(k, v)], rest)
                rw [hv]
                show some ([(String.mk k.toList, v)], rest) = some ([(k, v)], rest)
                rw [str_mk_toList]
            | cons g gs =>
                have hv := ihV v (',' :: (emitFields (g :: gs) ++ rbrace :: rest)) hjv
                  (by intro c0 hc0; simp at hc0; subst hc0; decide)
                have hf2 := ihF (g :: gs) rest (by simp) (by omega)
                have hs := parseStrBody_escape k.toList
                  (':' :: (emitJson v ++ ',' :: (emitFields (g :: gs) ++ rbrace :: rest)))
                have he : emitFields ((k, v) :: g :: gs) ++ rbrace :: rest
                    = '"' :: (escapeChars k.toList ++ '"' :: (':' :: (emitJson v
                        ++ ',' :: (emitFields (g :: gs) ++ rbrace :: rest)))) := by
                  show (('"' :: (escapeChars k.toList ++ '"' :: ':' :: emitJson v))
                      ++ ',' :: emitFields (g :: gs)) ++ rbrace :: rest = _
                  simp
                rw [he, parseFields_succ]
                show (match parseStrBody (escapeChars k.toList ++ '"' :: (':' :: (emitJson v
                      ++ ',' :: (emitFields (g :: gs) ++ rbrace :: rest)))) with
                  | none => none
                  | some (kcs, r2) =>
                      match r2 with
                      | ':' :: r3 =>
                          match parseVal fuel r3 with
                          | none => none
                          | some (v2, r4) =>
                              match r4 with
                              | ',' :: r5 =>
                                  match parseFields fuel r5 with
                                  | some p => some ((String.mk kcs, v2) :: p.1, p.2)
                                  | none => none
                              | c4 :: r5 =>
                                  if c4 = rbrace then some ([(String.mk kcs, v2)], r5)
                                  else none
                              | [] => none
                      | _ => none) = some ((k, v) :: g :: gs, rest)
                rw [hs]
                show (match parseVal fuel (emitJson v
                      ++ ',' :: (emitFields (g :: gs) ++ rbrace :: rest)) with
                  | none => none
                  | some (v2, r4) =>
                      match r4 with
                      | ',' :: r5 =>
                          match parseFields fuel r5 with
                          | some p => some ((String.mk k.toList, v2) :: p.1, p.2)
                          | none => none
                      | c4 :: r5 =>
                          if c4 = rbrace then some ([(String.mk k.toList, v2)], r5)
                          else none
                      | [] => none) = some ((k, v) :: g :: gs, rest)
                rw [hv]
                show (match parseFields fuel (emitFields (g :: gs) ++ rbrace :: rest) with
                  | some p => some ((String.mk k.toList, v) :: p.1, p.2)
                  | none => none) = some ((k, v) :: g :: gs, rest)
                rw [hf2, str_mk_toList]

theorem decodeJson_emitJson (j : Json) : decodeJson (emitJson j) = some j := by
  unfold decodeJson
  have h := (parse_emit ((emitJson j).length + 1)).1 j []
    (by have := jsize_le_emit j; omega)
    (by intro c hc; simp at hc)
  rw [List.append_nil] at h
  rw [h]

theorem kindOfStr_toStr (k : PowerKind) : kindOfStr (kindToStr k) = some k := by
  cases k <;> rfl

theorem phaseOfStr_toStr (p : WPhase) : phaseOfStr (phaseToStr p) = some p := by
  cases p <;> rfl

theorem asOptStr_optStrJson (o : Option String) :
    asOptStr (some (optStrJson o)) = some o := by
  cases o <;> rfl

theorem asOptInt_optIntJson (o : Option Int) :
    asOptInt (some (optIntJson o)) = some o := by
  cases o <;> rfl

theorem statsFromJson_toJson (st : PlayerStats) :
    statsFromJson (statsToJson st) = some st := by
  simp [statsToJson, statsFromJson, jlookup, asStr, asNum, jNumOr0]

theorem playersFromJson_map (ps : List (String × PlayerStats)) :
    playersFromJson (Json.obj (ps.map (fun kv => (kv.1, statsToJson kv.2)))) = some ps := by
  have h : ∀ l : List (String × PlayerStats),
      playersFromJson.playersOfFields (l.map (fun kv => (kv.1, statsToJson kv.2)))
        = some l := by
    intro l
    induction l with
    | nil => rfl
    | cons kv tl ih => simp [playersFromJson.playersOfFields, statsFromJson_toJson, ih]
  simp [playersFromJson, h]

theorem asStrList_map (l : List String) :
    asStrList (Json.arr (l.map Json.str)) = some l := by
  have h : ∀ l : List String, asStrList.asStrItems (l.map Json.str) = some l := by
    intro l
    induction l with
    | nil => rfl
    | cons s tl ih => simp [asStrList.asStrItems, ih]
  simp [asStrList, h]

theorem ruleFromJson_toJson (r : KingRule) : ruleFromJson (ruleToJson r) = some r := by
  simp [ruleToJson, ruleFromJson, jlookup, asStr, asNum]

theorem rulesFromJson_map (rs : List KingRule) :
    rulesFromJson (Json.arr (rs.map ruleToJson)) = some rs := by
  have h : ∀ l : List KingRule, rulesFromJson.rulesOfItems (l.map ruleToJson) = some l := by
    intro l
    induction l with
    | nil => rfl
    | cons r tl ih => simp [rulesFromJson.rulesOfItems, ruleFromJson_toJson, ih]
  simp [rulesFromJson, h]

theorem powerRoundFromJson_toJson (pr : PowerRound) :
    powerRoundFromJson (powerRoundToJson pr) = some pr := by
  simp [powerRoundToJson, powerRoundFromJson, jlookup, asStr, asBool, asNum,
    kindOfStr_toStr, asStrList_map, asOptStr_optStrJson]

theorem waterfallFromJson_toJson (wf : Waterfall) :
    waterfallFromJson (waterfallToJson wf) = some wf := by
  simp [waterfallToJson, waterfallFromJson, jlookup, asStr, asNum,
    phaseOfStr_toStr, asOptInt_optIntJson]

theorem jNullish_null : jNullish (some Json.null) = true := rfl

theorem jNullish_arr (l : List Json) : jNullish (some (Json.arr l)) = false := rfl

theorem jNullish_obj (fs : List (String × Json)) :
    jNullish (some (Json.obj fs)) = false := rfl

theorem jNullish_powerRoundToJson (pr : PowerRound) :
    jNullish (some (powerRoundToJson pr)) = false := rfl

theorem jNullish_waterfallToJson (wf : Waterfall) :
    jNullish (some (waterfallToJson wf)) = false := rfl

theorem gameStateFromJson_toJson (gs : GameState) :
    gameStateFromJson (gameStateToJson gs) = some gs := by
  obtain ⟨host, deck, cc, turn, ldb, players, hh, th, qh, kh, opr, owf, kr⟩ := gs
  cases opr <;> cases owf <;>
    simp [gameStateToJson, gameStateFromJson, jlookup, jNullish_null, jNullish_arr,
      jNullish_obj, jNullish_powerRoundToJson, jNullish_waterfallToJson,
      asOptStr_optStrJson, asStrList_map, playersFromJson_map, rulesFromJson_map,
      powerRoundFromJson_toJson, waterfallFromJson_toJson]

theorem patchFromJson_toJson (p : StatsPatch) :
    patchFromJson (patchToJson p) = some p := by
  obtain ⟨n, d, c, q, pl⟩ := p
  cases n <;> cases d <;> cases c <;> cases q <;> cases pl <;> rfl

theorem readMsg_msgToJson (m : Msg) : readMsg (msgToJson m) = some m := by
  cases m with
  | state d =>
      simp [msgToJson, readMsg, jlookup, asStr, gameStateFromJson_toJson]
  | drawReq rb =>
      cases rb <;> simp [msgToJson, readMsg, jlookup, asStr]
  | update id p =>
      simp [msgToJson, readMsg, jlookup, asStr, patchFromJson_toJson]
  | powerStart k rb =>
      simp [msgToJson, readMsg, jlookup, asStr, kindOfStr_toStr]
  | powerTap k b =>
      simp [msgToJson, readMsg, jlookup, asStr, kindOfStr_toStr]
  | powerClear rb =>
      simp [msgToJson, readMsg, jlookup, asStr]
  | waterfallStart rb =>
      simp [msgToJson, readMsg, jlookup, asStr]
  | qmCaughtMsg rb tg =>
      simp [msgToJson, readMsg, jlookup, asStr]
  | kingAddRuleMsg rb tx =>
      simp [msgToJson, readMsg, jlookup, asStr]
  | kingRemoveRuleMsg rb rid =>
      simp [msgToJson, readMsg, jlookup, asStr]

/-- CLAIM C9: the wire codec is lossless and total on the message union:
for every message m of the Msg union, JSON.parse of JSON.stringify of m
succeeds and returns exactly the JSON value of m (observational equality
of the decoded value with m, witnessed by the typed reader recovering m
from that value); and decode of non-JSON input returns null (the ignore
sentinel) instead of throwing. -/
theorem codec_round_trip :
    (∀ m : Msg, decodeJson (encode m) = some (msgToJson m) ∧
      readMsg (msgToJson m) = some m) ∧
    decodeJson (String.toList "not json") = none := by
  refine ⟨fun m => ⟨decodeJson_emitJson (msgToJson m), readMsg_msgToJson m⟩, ?_⟩
  rfl

end KadKings
